import Mathlib

/-!
# PromptPilot — verification of the prompt version control and synchronization core

Shallow embedding of `src/lib/storage.ts` (the `versionStorage` engine, the
`localStorage` serialization boundary and the push-reconciliation pass
`syncToSupabase`).  The engine state is the rehydrated in-memory content of the
local cache: an ordered list of `PromptGroup`.  Every mutating operation of the
source first loads that list, mutates at most one group found by a first-match
scan (`findIndex` / a `for` loop with `break`), and stores the list back; we
model each operation as a pure function `State → Result × State`, rendering the
index-based first-match scans as structural recursion on the list.  Sources of
nondeterminism of the environment (`generateId()`, `Date.now()`, remote-call
success) are passed as explicit parameters.  JavaScript `x || d` defaulting on
strings (which also replaces the empty string) is modeled by `jsOrString`.
-/

namespace PromptPilot

/-- Version lifecycle status: `'draft' | 'current' | 'production'`. -/
inductive Status where
  | draft
  | current
  | production
deriving DecidableEq, Repr

/-- The `createdFrom.type` tag of a version (the untyped `sourceData` payload is
not modeled). -/
inductive CreatedFrom where
  | manual
  | improved
  | generated
  | rewritten
deriving DecidableEq, Repr

/-- `PromptVersion` of storage.ts (the untyped `metadata` blob is not modeled). -/
structure PromptVersion where
  id : String
  promptId : String
  version : Nat
  name : String
  content : String
  description : Option String
  status : Status
  parentVersionId : Option String
  timestamp : Nat
  createdFrom : CreatedFrom
deriving DecidableEq, Repr

/-- The `_syncedVersionIds?: Set<string> | string[]` field of a group: it is
either a JS `Set` (insertion-ordered, duplicate-free by construction), a plain
array (what JSON deserialization produces), or absent (`undefined`). -/
inductive SyncField where
  | set (elems : List String)
  | arr (elems : List String)
  | absent
deriving DecidableEq, Repr

/-- `PromptGroup` of storage.ts. -/
structure PromptGroup where
  id : String
  name : String
  description : Option String
  currentVersionId : String
  productionVersionId : Option String
  versions : List PromptVersion
  tags : Option (List String)
  timestamp : Nat
  lastModified : Nat
  supabase_id : Option String
  syncedVersionIds : SyncField
deriving DecidableEq, Repr

/-- JavaScript `s || d` for an optional string: `undefined` and the empty
string (both falsy) fall back to the default. -/
def jsOrString (s : Option String) (d : String) : String :=
  match s with
  | some t => if t = "" then d else t
  | none => d

/-- The first version built by `createPromptGroup` (localStorage fallback
path): status `current`, version number 1, name `v1.0`,
`description: description || 'Initial version'`. -/
def mkFirstVersion (gid vid : String) (content : String) (description : Option String)
    (now : Nat) : PromptVersion :=
  { id := vid
    promptId := gid
    version := 1
    name := "v1.0"
    content := content
    description := some (jsOrString description "Initial version")
    status := Status.current
    parentVersionId := none
    timestamp := now
    createdFrom := CreatedFrom.manual }

/-- `versionStorage.createPromptGroup` (the localStorage path taken when the
remote store is not configured): builds the group holding its single initial
version and appends it to the stored collection in one write.  The generated
ids `gid`, `vid` and the clock value `now` are explicit parameters. -/
def createPromptGroup (name content : String) (description : Option String)
    (gid vid : String) (now : Nat) (groups : List PromptGroup) :
    PromptGroup × List PromptGroup :=
  let firstVersion := mkFirstVersion gid vid content description now
  let group : PromptGroup :=
    { id := gid
      name := name
      description := description
      currentVersionId := vid
      productionVersionId := none
      versions := [firstVersion]
      tags := none
      timestamp := now
      lastModified := now
      supabase_id := none
      syncedVersionIds := SyncField.absent }
  (group, groups ++ [group])

/-- `versionStorage.getGroupById`: first group whose id matches. -/
def getGroupById (gid : String) (groups : List PromptGroup) : Option PromptGroup :=
  groups.find? (fun g => g.id == gid)

/-- `versionStorage.getVersionById`: scan groups in stored order, inside each
group scan versions in order, return the first match. -/
def getVersionById (vid : String) : List PromptGroup → Option PromptVersion
  | [] => none
  | g :: gs =>
    match g.versions.find? (fun v => v.id == vid) with
    | some v => some v
    | none => getVersionById vid gs

/-- `group.versions.findIndex(v => v.id === versionId) !== -1`. -/
def containsVersion (vid : String) (g : PromptGroup) : Bool :=
  g.versions.any (fun v => v.id == vid)

/-! ## addVersion -/

/-- The `options.status` argument of `addVersion`, restricted by its TypeScript
type to `'draft' | 'current'`. -/
inductive AddStatus where
  | draft
  | current
deriving DecidableEq, Repr

/-- Embed the restricted option status into `Status`. -/
def AddStatus.toStatus : AddStatus → Status
  | AddStatus.draft => Status.draft
  | AddStatus.current => Status.current

/-- The `options` object of `addVersion`. -/
structure AddVersionOptions where
  name : Option String
  description : Option String
  status : Option AddStatus
  createdFrom : Option CreatedFrom
  parentVersionId : Option String
deriving DecidableEq, Repr

/-- `Math.max(...group.versions.map(v => v.version))` for the non-empty version
lists the engine maintains (every group is created with one version and can
never lose its last one); on naturals the fold with seed 0 agrees with the
maximum of a non-empty list. -/
def maxVersionNumber (vs : List PromptVersion) : Nat :=
  (vs.map (fun v => v.version)).foldr max 0

/-- The version record built by `addVersion` for a group `g` found under
`groupId = gid`: version number `max + 1`, `name: options.name || 'v{n}.0'`,
`status: options.status || 'draft'`, `createdFrom: options.createdFrom ||
{type: 'manual'}`. -/
def mkNewVersion (gid content : String) (opts : AddVersionOptions) (vid : String)
    (now : Nat) (g : PromptGroup) : PromptVersion :=
  let n := maxVersionNumber g.versions + 1
  { id := vid
    promptId := gid
    version := n
    name := jsOrString opts.name ("v" ++ toString n ++ ".0")
    content := content
    description := opts.description
    status := (opts.status.getD AddStatus.draft).toStatus
    parentVersionId := opts.parentVersionId
    timestamp := now
    createdFrom := opts.createdFrom.getD CreatedFrom.manual }

/-- `v.status === 'current' ? {...v, status: 'draft'} : v` — the demotion
applied to every existing version when a new version is added as `current`. -/
def demoteCurrent (v : PromptVersion) : PromptVersion :=
  if v.status = Status.current then { v with status := Status.draft } else v

/-- The mutation `addVersion` applies to the group it found: demote existing
`current` versions and repoint `currentVersionId` when the new version is
`current`, then push the new version and bump `lastModified`. -/
def addVersionGroup (gid content : String) (opts : AddVersionOptions) (vid : String)
    (now : Nat) (g : PromptGroup) : PromptVersion × PromptGroup :=
  let newVersion := mkNewVersion gid content opts vid now g
  let g' :=
    if newVersion.status = Status.current then
      { g with
        versions := g.versions.map demoteCurrent
        currentVersionId := vid }
    else g
  (newVersion, { g' with versions := g'.versions ++ [newVersion], lastModified := now })

/-- `versionStorage.addVersion`: find the first group with the given id
(`findIndex`); `null` and an untouched store when absent. -/
def addVersion (gid content : String) (opts : AddVersionOptions) (vid : String)
    (now : Nat) : List PromptGroup → Option PromptVersion × List PromptGroup
  | [] => (none, [])
  | g :: gs =>
    if g.id == gid then
      let r := addVersionGroup gid content opts vid now g
      (some r.1, r.2 :: gs)
    else
      let r := addVersion gid content opts vid now gs
      (r.1, g :: r.2)

/-! ## setVersionStatus -/

/-- The demotion the `setVersionStatus` loop applies to a version other than
the one found at `versionIndex`: when the incoming status is `current` or
`production` and the version holds that same status, it is forced to `draft`. -/
def demoteOther (s : Status) (v : PromptVersion) : PromptVersion :=
  if (s = Status.current ∨ s = Status.production) ∧ v.status = s then
    { v with status := Status.draft }
  else v

/-- Apply `setVersionStatus`'s per-version updates inside the found group's
version list: the first version whose id matches gets the new status, every
other version is demoted by `demoteOther` (a no-op for a `draft` transition).
This renders the source's `findIndex` + index-guarded `forEach` + direct
assignment as one first-match recursion. -/
def setStatusVersions (vid : String) (s : Status) : List PromptVersion → List PromptVersion
  | [] => []
  | v :: vs =>
    if v.id == vid then
      { v with status := s } :: vs.map (demoteOther s)
    else
      demoteOther s v :: setStatusVersions vid s vs

/-- The mutation `setVersionStatus` applies to the group in which it found the
version: update the statuses, repoint `currentVersionId` /
`productionVersionId` for a `current` / `production` transition, bump
`lastModified`. -/
def setStatusGroup (vid : String) (s : Status) (now : Nat) (g : PromptGroup) : PromptGroup :=
  { g with
    versions := setStatusVersions vid s g.versions
    currentVersionId := if s = Status.current then vid else g.currentVersionId
    productionVersionId :=
      if s = Status.production then some vid else g.productionVersionId
    lastModified := now }

/-- `versionStorage.setVersionStatus`: scan all groups in stored order, mutate
the first one containing the version id and stop (`break`); `false` and an
untouched store when no group contains it. -/
def setVersionStatus (vid : String) (s : Status) (now : Nat) :
    List PromptGroup → Bool × List PromptGroup
  | [] => (false, [])
  | g :: gs =>
    if containsVersion vid g then
      (true, setStatusGroup vid s now g :: gs)
    else
      let r := setVersionStatus vid s now gs
      (r.1, g :: r.2)

/-! ## deleteVersion -/

/-- First version with the given id in a list (the version at the source's
`versionIndex`). -/
def findFirstById (vid : String) : List PromptVersion → Option PromptVersion
  | [] => none
  | v :: vs => if v.id == vid then some v else findFirstById vid vs

/-- Remove the first version with the given id (`splice(versionIndex, 1)`,
equivalently the `filter((_, idx) => idx !== versionIndex)` of the remaining
versions since the found index is the first match). -/
def removeFirstById (vid : String) : List PromptVersion → List PromptVersion
  | [] => []
  | v :: vs => if v.id == vid then vs else v :: removeFirstById vid vs

/-- Set status `current` on the first version whose number attains `m`.  The
source takes `remaining.sort((a, b) => b.version - a.version)[0]`; JS sort is
stable, so that element is exactly the first, in original order, attaining the
maximal version number. -/
def setCurrentAtMax (m : Nat) : List PromptVersion → List PromptVersion
  | [] => []
  | v :: vs =>
    if v.version == m then { v with status := Status.current } :: vs
    else v :: setCurrentAtMax m vs

/-- The mutation `deleteVersion` applies to the group in which it found the
version (and which holds more than one version): drop the version; if it held
`current`, promote the remaining version with the highest number (first such,
see `setCurrentAtMax`) and repoint `currentVersionId`; if it held `production`,
clear `productionVersionId`; bump `lastModified`. -/
def deleteVersionGroup (vid : String) (now : Nat) (g : PromptGroup) : PromptGroup :=
  let vdel := findFirstById vid g.versions
  let remaining := removeFirstById vid g.versions
  let promote :=
    if vdel.map (fun v => v.status) = some Status.current then
      let m := maxVersionNumber remaining
      (setCurrentAtMax m remaining,
       (remaining.find? (fun v => v.version == m)).map (fun v => v.id))
    else (remaining, (none : Option String))
  { g with
    versions := promote.1
    currentVersionId :=
      match promote.2 with
      | some c => c
      | none => g.currentVersionId
    productionVersionId :=
      if vdel.map (fun v => v.status) = some Status.production then none
      else g.productionVersionId
    lastModified := now }

/-- `versionStorage.deleteVersion`: scan all groups in stored order; at the
first group containing the version id, refuse outright (`return false`, store
untouched) when it is the group's only version, otherwise apply
`deleteVersionGroup` and stop; `false` and an untouched store when no group
contains the id. -/
def deleteVersion (vid : String) (now : Nat) :
    List PromptGroup → Bool × List PromptGroup
  | [] => (false, [])
  | g :: gs =>
    if containsVersion vid g then
      if g.versions.length = 1 then (false, g :: gs)
      else (true, deleteVersionGroup vid now g :: gs)
    else
      let r := deleteVersion vid now gs
      (r.1, g :: r.2)

/-! ## updateGroup / updateVersion -/

/-- `{...group, ...updates, lastModified: Date.now()}` for the
`Partial<Pick<PromptGroup, 'name' | 'description' | 'tags'>>` patch; `none`
encodes an absent property. -/
def updateGroupFields (uName : Option String) (uDesc : Option String)
    (uTags : Option (List String)) (now : Nat) (g : PromptGroup) : PromptGroup :=
  { g with
    name := uName.getD g.name
    description :=
      match uDesc with
      | some d => some d
      | none => g.description
    tags :=
      match uTags with
      | some t => some t
      | none => g.tags
    lastModified := now }

/-- `versionStorage.updateGroup`: patch the first group with the given id;
`false` and an untouched store when absent. -/
def updateGroup (gid : String) (uName uDesc : Option String)
    (uTags : Option (List String)) (now : Nat) :
    List PromptGroup → Bool × List PromptGroup
  | [] => (false, [])
  | g :: gs =>
    if g.id == gid then
      (true, updateGroupFields uName uDesc uTags now g :: gs)
    else
      let r := updateGroup gid uName uDesc uTags now gs
      (r.1, g :: r.2)

/-- `{...version, ...updates}` for the
`Partial<Pick<PromptVersion, 'name' | 'description'>>` patch, applied at the
first version with the given id. -/
def updateVersionInList (vid : String) (uName uDesc : Option String) :
    List PromptVersion → List PromptVersion
  | [] => []
  | v :: vs =>
    if v.id == vid then
      { v with
        name := uName.getD v.name
        description :=
          match uDesc with
          | some d => some d
          | none => v.description } :: vs
    else v :: updateVersionInList vid uName uDesc vs

/-- The mutation `updateVersion` applies to the group in which it found the
version. -/
def updateVersionGroup (vid : String) (uName uDesc : Option String) (now : Nat)
    (g : PromptGroup) : PromptGroup :=
  { g with
    versions := updateVersionInList vid uName uDesc g.versions
    lastModified := now }

/-- `versionStorage.updateVersion`: scan all groups in stored order, patch the
version inside the first group containing it and stop; `false` and an
untouched store when absent. -/
def updateVersion (vid : String) (uName uDesc : Option String) (now : Nat) :
    List PromptGroup → Bool × List PromptGroup
  | [] => (false, [])
  | g :: gs =>
    if containsVersion vid g then
      (true, updateVersionGroup vid uName uDesc now g :: gs)
    else
      let r := updateVersion vid uName uDesc now gs
      (r.1, g :: r.2)

/-! ## Local Cache Store serialization of `_syncedVersionIds` -/

/-- `new Set(array)` keeps the first occurrence of each element, in order. -/
def dedupFirst (l : List String) : List String :=
  l.foldl (fun acc x => if x ∈ acc then acc else acc ++ [x]) []

/-- `localStorage.set` on the prompt-groups key: a `Set` field is flattened by
`Array.from` to its insertion-ordered element array; an array or absent field
is passed to `JSON.stringify` unchanged (and survives the JSON round trip
unchanged, being plain data). -/
def serializeSyncField : SyncField → SyncField
  | SyncField.set l => SyncField.arr l
  | f => f

/-- The rehydration `getAllGroups` performs after every load: an array becomes
`new Set(array)`, an absent field becomes `new Set()`, a `Set` is kept. -/
def rehydrateSyncField : SyncField → SyncField
  | SyncField.arr l => SyncField.set (dedupFirst l)
  | SyncField.absent => SyncField.set []
  | SyncField.set l => SyncField.set l

/-- A stored group as `localStorage.set` serializes it. -/
def saveGroup (g : PromptGroup) : PromptGroup :=
  { g with syncedVersionIds := serializeSyncField g.syncedVersionIds }

/-- A loaded group as `getAllGroups` rehydrates it. -/
def loadGroup (g : PromptGroup) : PromptGroup :=
  { g with syncedVersionIds := rehydrateSyncField g.syncedVersionIds }

/-- `localStorage.set(PROMPT_GROUPS, groups)`: per-group serialization. -/
def saveGroups (gs : List PromptGroup) : List PromptGroup :=
  gs.map saveGroup

/-- `getAllGroups`'s load of the stored collection: per-group rehydration. -/
def loadGroups (gs : List PromptGroup) : List PromptGroup :=
  gs.map loadGroup

/-- Membership in a `_syncedVersionIds` field: `Set.has` / `Array.includes`,
vacuously false when the field is absent. -/
def syncMem (f : SyncField) (x : String) : Bool :=
  match f with
  | SyncField.set l => l.contains x
  | SyncField.arr l => l.contains x
  | SyncField.absent => false

/-! ## Push reconciliation (`syncToSupabase`) -/

/-- One remote write issued by the push pass, keyed by the local object it
pushes: the `prompt_groups` insert issued through
`supabasePromptService.createGroup` or the `prompt_versions` insert issued
through `supabasePromptService.addVersion`.  (The follow-up
`setVersionStatus` status writes are not creates and are not logged.) -/
inductive RemoteCall where
  | createGroup (localGroupId : String)
  | createVersion (localVersionId : String)
deriving DecidableEq, Repr

/-- `Set.add` on a `_syncedVersionIds` field, after the source's normalization
(`undefined` becomes `new Set()`, an array becomes `new Set(array)`). -/
def syncAdd (f : SyncField) (x : String) : SyncField :=
  match f with
  | SyncField.absent => SyncField.set [x]
  | SyncField.arr l =>
      let d := dedupFirst l
      SyncField.set (if x ∈ d then d else d ++ [x])
  | SyncField.set l => SyncField.set (if x ∈ l then l else l ++ [x])

/-- The success callback of one remote `addVersion` issued by the push pass:
when the create succeeded (`succ`), the version id is added to the synced
set (after the source's `Set`-normalization, see `syncAdd`). -/
def syncStep (succ : String → Bool) (acc : SyncField) (v : PromptVersion) : SyncField :=
  if succ v.id then syncAdd acc v.id else acc

/-- The existing-remote-group arm of the push pass (`syncToSupabase`, case 2),
for one group: every version not in the synced set when the pass starts gets a
remote `addVersion` create; the success callbacks then add the ids of the
creates that succeeded (`succ`) to the synced set.  The calls are issued
synchronously against the pre-pass set — the `.then` additions land only after
all of them have been issued — which the two-phase `filter`/`foldl` renders. -/
def syncPassVersions (succ : String → Bool) (vs : List PromptVersion) (f : SyncField) :
    SyncField × List RemoteCall :=
  let pending := vs.filter (fun v => !(syncMem f v.id))
  (pending.foldl (syncStep succ) f,
   pending.map (fun v => RemoteCall.createVersion v.id))

/-- `if (!group._syncedVersionIds) group._syncedVersionIds = new Set()`: the
normalization case 2 of the push pass applies before scanning versions. -/
def syncNorm : SyncField → SyncField
  | SyncField.absent => SyncField.set []
  | f => f

/-- One group's share of the push pass `syncToSupabase`.  A group with no
`supabase_id` and at least one version (case 1) gets a remote group create
(carrying the first version's content); on success (`gsucc`) the remote id
(`rid`) is recorded and every version beyond the first gets a remote
`addVersion` create — none of them is recorded in `_syncedVersionIds`.  A group
with a `supabase_id` (case 2) first normalizes an absent `_syncedVersionIds` to
an empty set, then runs `syncPassVersions`.  Remote completions are modeled as
arriving before the next pass starts. -/
def syncGroup (gsucc succ : String → Bool) (rid : String → String) (g : PromptGroup) :
    PromptGroup × List RemoteCall :=
  match g.supabase_id with
  | none =>
    if 0 < g.versions.length then
      if gsucc g.id then
        ({ g with supabase_id := some (rid g.id) },
         RemoteCall.createGroup g.id ::
           (g.versions.drop 1).map (fun v => RemoteCall.createVersion v.id))
      else (g, [RemoteCall.createGroup g.id])
    else (g, [])
  | some _ =>
    let r := syncPassVersions succ g.versions (syncNorm g.syncedVersionIds)
    ({ g with syncedVersionIds := r.1 }, r.2)

/-- The full push pass `versionStorage.syncToSupabase`: every group is
processed independently; the issued remote creates are collected in order. -/
def syncToSupabase (gsucc succ : String → Bool) (rid : String → String) :
    List PromptGroup → List PromptGroup × List RemoteCall
  | [] => ([], [])
  | g :: gs =>
    let r := syncGroup gsucc succ rid g
    let rs := syncToSupabase gsucc succ rid gs
    (r.1 :: rs.1, r.2 ++ rs.2)

/-- Number of remote `prompt_versions` creates a call log holds for one local
version id. -/
def countCreates (calls : List RemoteCall) (vid : String) : Nat :=
  calls.count (RemoteCall.createVersion vid)

/-! ## Invariant vocabulary -/

/-- Number of versions of a group's list holding a given status. -/
def countStatus (s : Status) (vs : List PromptVersion) : Nat :=
  vs.countP (fun v => v.status == s)

/-- The single-active-version invariant: within every group, at most one
version is `current` and at most one is `production`. -/
def statusInv (gs : List PromptGroup) : Prop :=
  ∀ g ∈ gs, countStatus Status.current g.versions ≤ 1 ∧
    countStatus Status.production g.versions ≤ 1

/-- Fold a sequence of `setVersionStatus(..., 'current')` calls (version id and
clock value per call) over a state. -/
def applyCurrentCalls (calls : List (String × Nat)) (gs : List PromptGroup) :
    List PromptGroup :=
  calls.foldl (fun st c => (setVersionStatus c.1 Status.current c.2 st).2) gs

/-- Fold a sequence of `addVersion` calls on one group over a state, returning
the final state. -/
def addMany (gid : String) : List (String × AddVersionOptions × String × Nat) →
    List PromptGroup → List PromptGroup
  | [], gs => gs
  | c :: rest, gs =>
      addMany gid rest (addVersion gid c.1 c.2.1 c.2.2.1 c.2.2.2 gs).2

/-- The version numbers of a group, in stored order. -/
def versionNumbers (g : PromptGroup) : List Nat :=
  g.versions.map (fun v => v.version)

/-- `[s, s+1, ..., s+n-1]`. -/
def natsFrom (s : Nat) : Nat → List Nat
  | 0 => []
  | n + 1 => s :: natsFrom (s + 1) n

/-! ## Concrete fixtures for witnesses and counterexamples -/

/-- A concrete version for closed instances. -/
def mkV (i : String) (n : Nat) (s : Status) : PromptVersion :=
  { id := i
    promptId := "g"
    version := n
    name := i
    content := "c"
    description := none
    status := s
    parentVersionId := none
    timestamp := 0
    createdFrom := CreatedFrom.manual }

/-- A concrete group for closed instances. -/
def mkG (gid : String) (cur : String) (vs : List PromptVersion) (sid : Option String)
    (sf : SyncField) : PromptGroup :=
  { id := gid
    name := "n"
    description := none
    currentVersionId := cur
    productionVersionId := none
    versions := vs
    tags := none
    timestamp := 0
    lastModified := 0
    supabase_id := sid
    syncedVersionIds := sf }

/-- An empty `options` object. -/
def optsNone : AddVersionOptions :=
  { name := none
    description := none
    status := none
    createdFrom := none
    parentVersionId := none }

/-! # Theorems -/

theorem containsVersion_eq_false_iff (vid : String) (g : PromptGroup) :
    containsVersion vid g = false ↔ ∀ v ∈ g.versions, v.id ≠ vid := by
  simp [containsVersion]

theorem containsVersion_of_mem {vid : String} {g : PromptGroup} {v : PromptVersion}
    (hv : v ∈ g.versions) (hid : v.id = vid) : containsVersion vid g = true := by
  simp only [containsVersion, List.any_eq_true]
  exact ⟨v, hv, by simp [hid]⟩

theorem addVersion_not_found (gid content : String) (opts : AddVersionOptions)
    (vid : String) (now : Nat) :
    ∀ gs : List PromptGroup, (∀ g ∈ gs, g.id ≠ gid) →
      addVersion gid content opts vid now gs = (none, gs) := by
  intro gs
  induction gs with
  | nil => intro _; rfl
  | cons g gs ih =>
    intro h
    have hg : (g.id == gid) = false := by
      simpa using h g (by simp)
    simp only [addVersion, hg, Bool.false_eq_true, if_false,
      ih fun g' hg' => h g' (by simp [hg'])]

theorem setVersionStatus_not_found (vid : String) (s : Status) (now : Nat) :
    ∀ gs : List PromptGroup, (∀ g ∈ gs, containsVersion vid g = false) →
      setVersionStatus vid s now gs = (false, gs) := by
  intro gs
  induction gs with
  | nil => intro _; rfl
  | cons g gs ih =>
    intro h
    have hg : containsVersion vid g = false := h g (by simp)
    simp only [setVersionStatus, hg, Bool.false_eq_true, if_false,
      ih fun g' hg' => h g' (by simp [hg'])]

theorem setVersionStatus_found (vid : String) (s : Status) (now : Nat) :
    ∀ gs : List PromptGroup, (∃ g ∈ gs, containsVersion vid g = true) →
      (setVersionStatus vid s now gs).1 = true := by
  intro gs
  induction gs with
  | nil => rintro ⟨g, hg, _⟩; exact absurd hg (by simp)
  | cons g gs ih =>
    rintro ⟨g', hg', hc⟩
    by_cases h : containsVersion vid g = true
    · simp [setVersionStatus, h]
    · rcases List.mem_cons.mp hg' with rfl | hmem
      · exact absurd hc h
      · simp only [setVersionStatus, h, if_false]
        exact ih ⟨g', hmem, hc⟩

theorem deleteVersion_not_found (vid : String) (now : Nat) :
    ∀ gs : List PromptGroup, (∀ g ∈ gs, containsVersion vid g = false) →
      deleteVersion vid now gs = (false, gs) := by
  intro gs
  induction gs with
  | nil => intro _; rfl
  | cons g gs ih =>
    intro h
    have hg : containsVersion vid g = false := h g (by simp)
    simp only [deleteVersion, hg, Bool.false_eq_true, if_false,
      ih fun g' hg' => h g' (by simp [hg'])]

theorem updateGroup_not_found (gid : String) (uName uDesc : Option String)
    (uTags : Option (List String)) (now : Nat) :
    ∀ gs : List PromptGroup, (∀ g ∈ gs, g.id ≠ gid) →
      updateGroup gid uName uDesc uTags now gs = (false, gs) := by
  intro gs
  induction gs with
  | nil => intro _; rfl
  | cons g gs ih =>
    intro h
    have hg : (g.id == gid) = false := by
      simpa using h g (by simp)
    simp only [updateGroup, hg, Bool.false_eq_true, if_false,
      ih fun g' hg' => h g' (by simp [hg'])]

theorem updateVersion_not_found (vid : String) (uName uDesc : Option String) (now : Nat) :
    ∀ gs : List PromptGroup, (∀ g ∈ gs, containsVersion vid g = false) →
      updateVersion vid uName uDesc now gs = (false, gs) := by
  intro gs
  induction gs with
  | nil => intro _; rfl
  | cons g gs ih =>
    intro h
    have hg : containsVersion vid g = false := h g (by simp)
    simp only [updateVersion, hg, Bool.false_eq_true, if_false,
      ih fun g' hg' => h g' (by simp [hg'])]

theorem getGroupById_not_found (gid : String) :
    ∀ gs : List PromptGroup, (∀ g ∈ gs, g.id ≠ gid) → getGroupById gid gs = none := by
  intro gs h
  simp only [getGroupById, List.find?_eq_none]
  intro g hg
  simpa using h g hg

theorem getVersionById_not_found (vid : String) :
    ∀ gs : List PromptGroup, (∀ g ∈ gs, containsVersion vid g = false) →
      getVersionById vid gs = none := by
  intro gs
  induction gs with
  | nil => intro _; rfl
  | cons g gs ih =>
    intro h
    have hg : ∀ v ∈ g.versions, v.id ≠ vid :=
      (containsVersion_eq_false_iff vid g).mp (h g (by simp))
    have hfind : g.versions.find? (fun v => v.id == vid) = none := by
      simp only [List.find?_eq_none]
      intro v hv
      simpa using hg v hv
    simp only [getVersionById, hfind]
    exact ih fun g' hg' => h g' (by simp [hg'])

theorem getGroupById_append_fresh (gid : String) (gs : List PromptGroup)
    (g : PromptGroup) (hfresh : ∀ g' ∈ gs, g'.id ≠ gid) :
    getGroupById gid (gs ++ [g]) = getGroupById gid [g] := by
  induction gs with
  | nil => simp
  | cons a as ih =>
    have ha : a.id ≠ gid := hfresh a (by simp)
    have ha' : (a.id == gid) = false := by
      simpa using ha
    simp only [getGroupById, List.cons_append, List.find?_cons, ha']
    exact ih fun g' hg' => hfresh g' (by simp [hg'])

/-- C2. `createPromptGroup(name, content, description?)` creates the group
together with exactly one initial version of status `current` and version
number 1, the group's `currentVersionId` pointing at it, atomically: the single
stored record appended holds both, and `getGroupById` on the returned id
immediately yields that group, provided the generated group id is fresh. -/
theorem createPromptGroup_atomic_initial_version
    (name content : String) (description : Option String)
    (gid vid : String) (now : Nat) (groups : List PromptGroup)
    (hfresh : ∀ g ∈ groups, g.id ≠ gid) :
    getGroupById gid (createPromptGroup name content description gid vid now groups).2
        = some (createPromptGroup name content description gid vid now groups).1
      ∧ (createPromptGroup name content description gid vid now groups).1.versions
        = [mkFirstVersion gid vid content description now]
      ∧ (mkFirstVersion gid vid content description now).status = Status.current
      ∧ (mkFirstVersion gid vid content description now).version = 1
      ∧ (createPromptGroup name content description gid vid now groups).1.currentVersionId
        = (mkFirstVersion gid vid content description now).id := by
  refine ⟨?_, rfl, rfl, rfl, rfl⟩
  rw [createPromptGroup]
  simp only
  rw [getGroupById_append_fresh gid groups _ hfresh]
  simp [getGroupById]

/-- Closed witness for `createPromptGroup_atomic_initial_version` at a concrete
state whose existing group has a different id. -/
theorem createPromptGroup_atomic_initial_version_witness :
    getGroupById "g2" (createPromptGroup "G" "content" none "g2" "v2" 5
          [(createPromptGroup "Other" "x" none "g1" "v1" 3 []).1]).2
        = some (createPromptGroup "G" "content" none "g2" "v2" 5
          [(createPromptGroup "Other" "x" none "g1" "v1" 3 []).1]).1
      ∧ (createPromptGroup "G" "content" none "g2" "v2" 5
          [(createPromptGroup "Other" "x" none "g1" "v1" 3 []).1]).1.versions
        = [mkFirstVersion "g2" "v2" "content" none 5]
      ∧ (mkFirstVersion "g2" "v2" "content" none 5).status = Status.current
      ∧ (mkFirstVersion "g2" "v2" "content" none 5).version = 1
      ∧ (createPromptGroup "G" "content" none "g2" "v2" 5
          [(createPromptGroup "Other" "x" none "g1" "v1" 3 []).1]).1.currentVersionId
        = (mkFirstVersion "g2" "v2" "content" none 5).id :=
  createPromptGroup_atomic_initial_version "G" "content" none "g2" "v2" 5
    [(createPromptGroup "Other" "x" none "g1" "v1" 3 []).1]
    (by intro g hg; simp [createPromptGroup] at hg; subst hg; decide)


/-- C5. `deleteVersion` on the only version of its group (its owning group
being the first one of the stored order containing the id) returns `false` and
leaves the whole stored state untouched, so no group can reach zero versions
through `deleteVersion`. -/
theorem deleteVersion_refuses_only_version
    (gs1 gs2 : List PromptGroup) (g : PromptGroup) (v : PromptVersion) (now : Nat)
    (hpre : ∀ g' ∈ gs1, containsVersion v.id g' = false)
    (hone : g.versions = [v]) :
    deleteVersion v.id now (gs1 ++ g :: gs2) = (false, gs1 ++ g :: gs2) := by
  induction gs1 with
  | nil =>
    have hcon : containsVersion v.id g = true :=
      containsVersion_of_mem (by simp [hone]) rfl
    simp [deleteVersion, hcon, hone]
  | cons a as ih =>
    have ha : containsVersion v.id a = false := hpre a (by simp)
    have ih' := ih fun g' hg' => hpre g' (by simp [hg'])
    simp only [List.cons_append, deleteVersion, ha, Bool.false_eq_true, if_false,
      List.append_eq, ih']

/-- Closed witness for `deleteVersion_refuses_only_version`: a preceding group
without the id, then a single-version group. -/
theorem deleteVersion_refuses_only_version_witness :
    deleteVersion "a" 7
        [mkG "g0" "" [mkV "x" 1 Status.draft] none SyncField.absent,
         mkG "g1" "a" [mkV "a" 1 Status.current] none SyncField.absent]
      = (false,
        [mkG "g0" "" [mkV "x" 1 Status.draft] none SyncField.absent,
         mkG "g1" "a" [mkV "a" 1 Status.current] none SyncField.absent]) :=
  deleteVersion_refuses_only_version
    [mkG "g0" "" [mkV "x" 1 Status.draft] none SyncField.absent] []
    (mkG "g1" "a" [mkV "a" 1 Status.current] none SyncField.absent)
    (mkV "a" 1 Status.current) 7 (by decide) (by decide)

/-- C8. Not-found is surfaced as a `null`/`false` return with the stored state
untouched (the operations are total functions of the state — nothing is
thrown): `addVersion` on an unknown group id returns `null`; `setVersionStatus`
on an unknown version id returns `false` and `true` when some group contains
the id; `deleteVersion`, `updateGroup`, `updateVersion`, `getGroupById` and
`getVersionById` return `false`/`none` likewise on absent ids. -/
theorem not_found_surfaced_as_null_or_false :
    (∀ (gs : List PromptGroup) gid content opts vid now, (∀ g ∈ gs, g.id ≠ gid) →
        addVersion gid content opts vid now gs = (none, gs))
  ∧ (∀ (gs : List PromptGroup) vid s now, (∀ g ∈ gs, containsVersion vid g = false) →
        setVersionStatus vid s now gs = (false, gs))
  ∧ (∀ (gs : List PromptGroup) vid s now g, g ∈ gs → containsVersion vid g = true →
        (setVersionStatus vid s now gs).1 = true)
  ∧ (∀ (gs : List PromptGroup) vid now, (∀ g ∈ gs, containsVersion vid g = false) →
        deleteVersion vid now gs = (false, gs))
  ∧ (∀ (gs : List PromptGroup) gid n d t now, (∀ g ∈ gs, g.id ≠ gid) →
        updateGroup gid n d t now gs = (false, gs))
  ∧ (∀ (gs : List PromptGroup) vid n d now, (∀ g ∈ gs, containsVersion vid g = false) →
        updateVersion vid n d now gs = (false, gs))
  ∧ (∀ (gs : List PromptGroup) gid, (∀ g ∈ gs, g.id ≠ gid) → getGroupById gid gs = none)
  ∧ (∀ (gs : List PromptGroup) vid, (∀ g ∈ gs, containsVersion vid g = false) →
        getVersionById vid gs = none) := by
  refine ⟨?_, ?_, ?_, ?_, ?_, ?_, ?_, ?_⟩
  · intro gs gid content opts vid now h
    exact addVersion_not_found gid content opts vid now gs h
  · intro gs vid s now h
    exact setVersionStatus_not_found vid s now gs h
  · intro gs vid s now g hg hc
    exact setVersionStatus_found vid s now gs ⟨g, hg, hc⟩
  · intro gs vid now h
    exact deleteVersion_not_found vid now gs h
  · intro gs gid n d t now h
    exact updateGroup_not_found gid n d t now gs h
  · intro gs vid n d now h
    exact updateVersion_not_found vid n d now gs h
  · intro gs gid h
    exact getGroupById_not_found gid gs h
  · intro gs vid h
    exact getVersionById_not_found vid gs h

/-- Closed witness for `not_found_surfaced_as_null_or_false` at a concrete
one-group state and absent ids. -/
theorem not_found_surfaced_as_null_or_false_witness :
    addVersion "zz" "c" optsNone "v9" 3
        [mkG "g0" "" [mkV "x" 1 Status.draft] none SyncField.absent]
      = (none, [mkG "g0" "" [mkV "x" 1 Status.draft] none SyncField.absent])
  ∧ setVersionStatus "zz" Status.current 3
        [mkG "g0" "" [mkV "x" 1 Status.draft] none SyncField.absent]
      = (false, [mkG "g0" "" [mkV "x" 1 Status.draft] none SyncField.absent])
  ∧ (setVersionStatus "x" Status.draft 3
        [mkG "g0" "" [mkV "x" 1 Status.draft] none SyncField.absent]).1 = true
  ∧ deleteVersion "zz" 3 [mkG "g0" "" [mkV "x" 1 Status.draft] none SyncField.absent]
      = (false, [mkG "g0" "" [mkV "x" 1 Status.draft] none SyncField.absent])
  ∧ updateGroup "zz" none none none 3
        [mkG "g0" "" [mkV "x" 1 Status.draft] none SyncField.absent]
      = (false, [mkG "g0" "" [mkV "x" 1 Status.draft] none SyncField.absent])
  ∧ updateVersion "zz" none none 3
        [mkG "g0" "" [mkV "x" 1 Status.draft] none SyncField.absent]
      = (false, [mkG "g0" "" [mkV "x" 1 Status.draft] none SyncField.absent])
  ∧ getGroupById "zz" [mkG "g0" "" [mkV "x" 1 Status.draft] none SyncField.absent] = none
  ∧ getVersionById "zz" [mkG "g0" "" [mkV "x" 1 Status.draft] none SyncField.absent]
      = none :=
  ⟨not_found_surfaced_as_null_or_false.1 _ "zz" "c" optsNone "v9" 3 (by decide),
   not_found_surfaced_as_null_or_false.2.1 _ "zz" Status.current 3 (by decide),
   not_found_surfaced_as_null_or_false.2.2.1 _ "x" Status.draft 3
     (mkG "g0" "" [mkV "x" 1 Status.draft] none SyncField.absent) (by simp) (by decide),
   not_found_surfaced_as_null_or_false.2.2.2.1 _ "zz" 3 (by decide),
   not_found_surfaced_as_null_or_false.2.2.2.2.1 _ "zz" none none none 3 (by decide),
   not_found_surfaced_as_null_or_false.2.2.2.2.2.1 _ "zz" none none 3 (by decide),
   not_found_surfaced_as_null_or_false.2.2.2.2.2.2.1 _ "zz" (by decide),
   not_found_surfaced_as_null_or_false.2.2.2.2.2.2.2 _ "zz" (by decide)⟩

theorem demoteOther_draft (v : PromptVersion) : demoteOther Status.draft v = v := by
  simp [demoteOther]

theorem map_demoteOther_draft (vs : List PromptVersion) :
    vs.map (demoteOther Status.draft) = vs := by
  induction vs with
  | nil => rfl
  | cons v vs ih => simp [demoteOther_draft, ih]

theorem setStatusVersions_first (vid : String) (s : Status) (v : PromptVersion)
    (vs2 : List PromptVersion) (hv : v.id = vid) :
    ∀ vs1 : List PromptVersion, (∀ u ∈ vs1, u.id ≠ vid) →
      setStatusVersions vid s (vs1 ++ v :: vs2)
        = vs1.map (demoteOther s)
          ++ ({ v with status := s } :: vs2.map (demoteOther s)) := by
  intro vs1
  induction vs1 with
  | nil =>
    intro _
    have hv' : (v.id == vid) = true := by simp [hv]
    simp [setStatusVersions, hv']
  | cons u us ih =>
    intro h
    have hu : (u.id == vid) = false := by
      simpa using h u (by simp)
    simp only [List.cons_append, setStatusVersions, hu, Bool.false_eq_true, if_false,
      List.map_cons, List.append_eq, ih fun x hx => h x (by simp [hx])]

theorem setVersionStatus_append_found (vid : String) (s : Status) (now : Nat)
    (g : PromptGroup) (gs2 : List PromptGroup) (hg : containsVersion vid g = true) :
    ∀ gs1 : List PromptGroup, (∀ g' ∈ gs1, containsVersion vid g' = false) →
      setVersionStatus vid s now (gs1 ++ g :: gs2)
        = (true, gs1 ++ setStatusGroup vid s now g :: gs2) := by
  intro gs1
  induction gs1 with
  | nil =>
    intro _
    simp [setVersionStatus, hg]
  | cons a as ih =>
    intro h
    have ha : containsVersion vid a = false := h a (by simp)
    simp only [List.cons_append, setVersionStatus, ha, Bool.false_eq_true, if_false,
      List.append_eq, ih fun g' hg' => h g' (by simp [hg'])]

theorem deleteVersion_append_found (vid : String) (now : Nat)
    (g : PromptGroup) (gs2 : List PromptGroup) (hg : containsVersion vid g = true) :
    ∀ gs1 : List PromptGroup, (∀ g' ∈ gs1, containsVersion vid g' = false) →
      deleteVersion vid now (gs1 ++ g :: gs2)
        = if g.versions.length = 1 then (false, gs1 ++ g :: gs2)
          else (true, gs1 ++ deleteVersionGroup vid now g :: gs2) := by
  intro gs1
  induction gs1 with
  | nil =>
    intro _
    by_cases hlen : g.versions.length = 1 <;> simp [deleteVersion, hg, hlen]
  | cons a as ih =>
    intro h
    have ha : containsVersion vid a = false := h a (by simp)
    have ih' := ih fun g' hg' => h g' (by simp [hg'])
    by_cases hlen : g.versions.length = 1 <;>
      simp_all [deleteVersion, ha, List.append_eq]

theorem updateVersion_append_found (vid : String) (uName uDesc : Option String)
    (now : Nat) (g : PromptGroup) (gs2 : List PromptGroup)
    (hg : containsVersion vid g = true) :
    ∀ gs1 : List PromptGroup, (∀ g' ∈ gs1, containsVersion vid g' = false) →
      updateVersion vid uName uDesc now (gs1 ++ g :: gs2)
        = (true, gs1 ++ updateVersionGroup vid uName uDesc now g :: gs2) := by
  intro gs1
  induction gs1 with
  | nil =>
    intro _
    simp [updateVersion, hg]
  | cons a as ih =>
    intro h
    have ha : containsVersion vid a = false := h a (by simp)
    simp only [List.cons_append, updateVersion, ha, Bool.false_eq_true, if_false,
      List.append_eq, ih fun g' hg' => h g' (by simp [hg'])]

/-- C9. A `setVersionStatus(v.id, 'draft')` transition rewrites exactly the
found version's status (to `draft`) and the owning group's `lastModified`:
every other version, the group's `currentVersionId` and `productionVersionId`
(left stale even when they referenced the demoted version), and every other
group are returned unchanged. -/
theorem setVersionStatus_draft_only_changes_target
    (gs1 gs2 : List PromptGroup) (g : PromptGroup)
    (vs1 vs2 : List PromptVersion) (v : PromptVersion) (vid : String) (now : Nat)
    (hpre : ∀ g' ∈ gs1, containsVersion vid g' = false)
    (hg : g.versions = vs1 ++ v :: vs2)
    (hv : v.id = vid)
    (hfirst : ∀ u ∈ vs1, u.id ≠ vid) :
    setVersionStatus vid Status.draft now (gs1 ++ g :: gs2)
      = (true,
         gs1 ++ { g with
           versions := vs1 ++ { v with status := Status.draft } :: vs2,
           lastModified := now } :: gs2) := by
  have hcon : containsVersion vid g = true :=
    containsVersion_of_mem (by simp [hg]) hv
  rw [setVersionStatus_append_found vid Status.draft now g gs2 hcon gs1 hpre]
  have hvers : setStatusVersions vid Status.draft g.versions
      = vs1 ++ { v with status := Status.draft } :: vs2 := by
    rw [hg, setStatusVersions_first vid Status.draft v vs2 hv vs1 hfirst]
    rw [map_demoteOther_draft, map_demoteOther_draft]
  simp [setStatusGroup, hvers]

/-- Closed witness for `setVersionStatus_draft_only_changes_target`: the
demoted version is the group's current one; the pointer stays on it. -/
theorem setVersionStatus_draft_only_changes_target_witness :
    setVersionStatus "t" Status.draft 9
        ([mkG "g0" "" [mkV "x" 1 Status.draft] none SyncField.absent]
          ++ mkG "g1" "t" [mkV "u" 1 Status.draft, mkV "t" 2 Status.current] none
              SyncField.absent
            :: [])
      = (true,
         [mkG "g0" "" [mkV "x" 1 Status.draft] none SyncField.absent]
           ++ { mkG "g1" "t" [mkV "u" 1 Status.draft, mkV "t" 2 Status.current] none
                  SyncField.absent with
                versions := [mkV "u" 1 Status.draft]
                  ++ { mkV "t" 2 Status.current with status := Status.draft } :: [],
                lastModified := 9 } :: []) :=
  setVersionStatus_draft_only_changes_target
    [mkG "g0" "" [mkV "x" 1 Status.draft] none SyncField.absent] []
    (mkG "g1" "t" [mkV "u" 1 Status.draft, mkV "t" 2 Status.current] none SyncField.absent)
    [mkV "u" 1 Status.draft] [] (mkV "t" 2 Status.current) "t" 9
    (by decide) rfl rfl (by decide)

/-- C10. Every per-version mutating operation (`setVersionStatus`,
`deleteVersion`, `updateVersion`) rewrites at most the first group, in stored
order, containing the version id; every group before it (none of which
contains the id) and after it (which may even contain the id again) is
returned unchanged. -/
theorem per_version_ops_modify_only_first_matching_group
    (gs1 gs2 : List PromptGroup) (g : PromptGroup) (vid : String) (now : Nat)
    (hpre : ∀ g' ∈ gs1, containsVersion vid g' = false)
    (hg : containsVersion vid g = true) :
    (∀ s, (setVersionStatus vid s now (gs1 ++ g :: gs2)).2
        = gs1 ++ setStatusGroup vid s now g :: gs2)
  ∧ ((deleteVersion vid now (gs1 ++ g :: gs2)).2
        = gs1 ++ (if g.versions.length = 1 then g else deleteVersionGroup vid now g) :: gs2)
  ∧ (∀ uName uDesc, (updateVersion vid uName uDesc now (gs1 ++ g :: gs2)).2
        = gs1 ++ updateVersionGroup vid uName uDesc now g :: gs2) := by
  refine ⟨?_, ?_, ?_⟩
  · intro s
    rw [setVersionStatus_append_found vid s now g gs2 hg gs1 hpre]
  · rw [deleteVersion_append_found vid now g gs2 hg gs1 hpre]
    by_cases hlen : g.versions.length = 1 <;> simp [hlen]
  · intro uName uDesc
    rw [updateVersion_append_found vid uName uDesc now g gs2 hg gs1 hpre]

/-- Closed witness for `per_version_ops_modify_only_first_matching_group`: a
later group carries the same version id and is still left untouched. -/
theorem per_version_ops_modify_only_first_matching_group_witness :
    ((setVersionStatus "t" Status.current 9
        ([mkG "g0" "" [mkV "x" 1 Status.draft] none SyncField.absent]
          ++ mkG "g1" "" [mkV "t" 1 Status.draft, mkV "u" 2 Status.draft] none
              SyncField.absent
            :: [mkG "g2" "" [mkV "t" 5 Status.draft] none SyncField.absent])).2
      = [mkG "g0" "" [mkV "x" 1 Status.draft] none SyncField.absent]
          ++ setStatusGroup "t" Status.current 9
              (mkG "g1" "" [mkV "t" 1 Status.draft, mkV "u" 2 Status.draft] none
                SyncField.absent)
            :: [mkG "g2" "" [mkV "t" 5 Status.draft] none SyncField.absent])
  ∧ ((deleteVersion "t" 9
        ([mkG "g0" "" [mkV "x" 1 Status.draft] none SyncField.absent]
          ++ mkG "g1" "" [mkV "t" 1 Status.draft, mkV "u" 2 Status.draft] none
              SyncField.absent
            :: [mkG "g2" "" [mkV "t" 5 Status.draft] none SyncField.absent])).2
      = [mkG "g0" "" [mkV "x" 1 Status.draft] none SyncField.absent]
          ++ (if (mkG "g1" "" [mkV "t" 1 Status.draft, mkV "u" 2 Status.draft] none
                SyncField.absent).versions.length = 1 then
              mkG "g1" "" [mkV "t" 1 Status.draft, mkV "u" 2 Status.draft] none
                SyncField.absent
            else
              deleteVersionGroup "t" 9
                (mkG "g1" "" [mkV "t" 1 Status.draft, mkV "u" 2 Status.draft] none
                  SyncField.absent))
            :: [mkG "g2" "" [mkV "t" 5 Status.draft] none SyncField.absent])
  ∧ ((updateVersion "t" (some "nn") none 9
        ([mkG "g0" "" [mkV "x" 1 Status.draft] none SyncField.absent]
          ++ mkG "g1" "" [mkV "t" 1 Status.draft, mkV "u" 2 Status.draft] none
              SyncField.absent
            :: [mkG "g2" "" [mkV "t" 5 Status.draft] none SyncField.absent])).2
      = [mkG "g0" "" [mkV "x" 1 Status.draft] none SyncField.absent]
          ++ updateVersionGroup "t" (some "nn") none 9
              (mkG "g1" "" [mkV "t" 1 Status.draft, mkV "u" 2 Status.draft] none
                SyncField.absent)
            :: [mkG "g2" "" [mkV "t" 5 Status.draft] none SyncField.absent]) :=
  ⟨(per_version_ops_modify_only_first_matching_group
      [mkG "g0" "" [mkV "x" 1 Status.draft] none SyncField.absent]
      [mkG "g2" "" [mkV "t" 5 Status.draft] none SyncField.absent]
      (mkG "g1" "" [mkV "t" 1 Status.draft, mkV "u" 2 Status.draft] none SyncField.absent)
      "t" 9 (by decide) (by decide)).1 Status.current,
   (per_version_ops_modify_only_first_matching_group
      [mkG "g0" "" [mkV "x" 1 Status.draft] none SyncField.absent]
      [mkG "g2" "" [mkV "t" 5 Status.draft] none SyncField.absent]
      (mkG "g1" "" [mkV "t" 1 Status.draft, mkV "u" 2 Status.draft] none SyncField.absent)
      "t" 9 (by decide) (by decide)).2.1,
   (per_version_ops_modify_only_first_matching_group
      [mkG "g0" "" [mkV "x" 1 Status.draft] none SyncField.absent]
      [mkG "g2" "" [mkV "t" 5 Status.draft] none SyncField.absent]
      (mkG "g1" "" [mkV "t" 1 Status.draft, mkV "u" 2 Status.draft] none SyncField.absent)
      "t" 9 (by decide) (by decide)).2.2 (some "nn") none⟩

/-! ### Round-trip serialization of the synced-set (C7) -/

theorem mem_foldl_dedup (l : List String) :
    ∀ (acc : List String) (x : String),
      (x ∈ l.foldl (fun a y => if y ∈ a then a else a ++ [y]) acc) ↔ x ∈ acc ∨ x ∈ l := by
  induction l with
  | nil => intro acc x; simp
  | cons y ys ih =>
    intro acc x
    rw [List.foldl_cons, ih]
    by_cases hy : y ∈ acc
    · rw [if_pos hy]
      constructor
      · rintro (h | h)
        · exact Or.inl h
        · exact Or.inr (List.mem_cons_of_mem y h)
      · rintro (h | h)
        · exact Or.inl h
        · rcases List.mem_cons.mp h with rfl | h
          · exact Or.inl hy
          · exact Or.inr h
    · rw [if_neg hy]
      simp only [List.mem_append, List.mem_singleton, List.mem_cons]
      tauto

theorem mem_dedupFirst (l : List String) (x : String) :
    x ∈ dedupFirst l ↔ x ∈ l := by
  rw [dedupFirst, mem_foldl_dedup]
  simp

theorem contains_dedupFirst (l : List String) (x : String) :
    (dedupFirst l).contains x = l.contains x := by
  simp only [List.contains, List.elem_eq_mem, decide_eq_decide]
  exact mem_dedupFirst l x

theorem syncField_round_trip (f : SyncField) :
    (∃ l, rehydrateSyncField (serializeSyncField f) = SyncField.set l)
  ∧ ∀ x, syncMem (rehydrateSyncField (serializeSyncField f)) x = syncMem f x := by
  cases f with
  | set l => exact ⟨⟨dedupFirst l, rfl⟩, fun x => contains_dedupFirst l x⟩
  | arr l => exact ⟨⟨dedupFirst l, rfl⟩, fun x => contains_dedupFirst l x⟩
  | absent => exact ⟨⟨[], rfl⟩, fun x => rfl⟩

/-- C7. Saving the stored collection (which flattens each group's
`_syncedVersionIds` set to a plain identifier array) and loading it back
yields, for every group pointwise, a `_syncedVersionIds` field materialized as
a set (an empty set when the field was absent) with exactly the membership the
group had before the save, all other fields untouched. -/
theorem synced_ids_round_trip_membership (gs : List PromptGroup) :
    List.Forall₂ (fun g g' =>
        (∃ l, g'.syncedVersionIds = SyncField.set l)
      ∧ (∀ x, syncMem g'.syncedVersionIds x = syncMem g.syncedVersionIds x)
      ∧ g' = { g with syncedVersionIds := g'.syncedVersionIds })
      gs (loadGroups (saveGroups gs)) := by
  induction gs with
  | nil => exact List.Forall₂.nil
  | cons g gs ih =>
    refine List.Forall₂.cons ?_ ih
    exact ⟨(syncField_round_trip g.syncedVersionIds).1,
      (syncField_round_trip g.syncedVersionIds).2, rfl⟩

/-! ### Push-reconciliation idempotence (C6) -/

theorem syncMem_syncNorm (f : SyncField) (x : String) :
    syncMem (syncNorm f) x = syncMem f x := by
  cases f <;> rfl

theorem contains_append_singleton (l : List String) (x y : String) :
    (l ++ [x]).contains y = (l.contains y || (y == x)) := by
  simp only [List.contains, List.elem_eq_mem, List.mem_append, List.mem_singleton]
  rcases Decidable.em (y ∈ l) with h | h <;> rcases Decidable.em (y = x) with h' | h' <;>
    simp [h, h']

theorem syncMem_syncAdd (f : SyncField) (x y : String) :
    syncMem (syncAdd f x) y = (syncMem f y || (y == x)) := by
  cases f with
  | absent =>
    simp only [syncAdd, syncMem, List.contains, List.elem_eq_mem, List.mem_singleton,
      Bool.false_or]
    exact (Bool.beq_eq_decide_eq y x).symm
  | set l =>
    by_cases hx : x ∈ l
    · have hcy : (y == x) = true → l.contains y = true := by
        intro h
        have : y = x := by simpa using h
        simp [List.contains, List.elem_eq_mem, this, hx]
      simp only [syncAdd, if_pos hx, syncMem]
      cases hyx : (y == x) with
      | false => simp
      | true =>
        have hmem : y ∈ l := by
          simpa [List.contains, List.elem_eq_mem] using hcy hyx
        simp [hcy hyx, hmem]
    · simp only [syncAdd, if_neg hx, syncMem]
      exact contains_append_singleton l x y
  | arr l =>
    by_cases hx : x ∈ dedupFirst l
    · have hcy : (y == x) = true → l.contains y = true := by
        intro h
        have hyx : y = x := by simpa using h
        have : x ∈ l := (mem_dedupFirst l x).mp hx
        simp [List.contains, List.elem_eq_mem, hyx, this]
      simp only [syncAdd, if_pos hx, syncMem, contains_dedupFirst]
      cases hyx : (y == x) with
      | false => simp
      | true =>
        have hmem : y ∈ l := by
          simpa [List.contains, List.elem_eq_mem] using hcy hyx
        simp [hcy hyx, hmem]
    · simp only [syncAdd, if_neg hx, syncMem]
      rw [contains_append_singleton, contains_dedupFirst]

theorem syncMem_foldl_mono (succ : String → Bool) (x : String) :
    ∀ (pending : List PromptVersion) (f : SyncField), syncMem f x = true →
      syncMem (pending.foldl (syncStep succ) f) x = true := by
  intro pending
  induction pending with
  | nil => intro f h; exact h
  | cons v vs ih =>
    intro f h
    rw [List.foldl_cons]
    refine ih (syncStep succ f v) ?_
    rw [syncStep]
    cases hs : succ v.id with
    | false => simpa using h
    | true => simp [syncMem_syncAdd, h]

theorem syncMem_foldl_of_mem (succ : String → Bool) (v : PromptVersion)
    (hsucc : succ v.id = true) :
    ∀ (pending : List PromptVersion) (f : SyncField), v ∈ pending →
      syncMem (pending.foldl (syncStep succ) f) v.id = true := by
  intro pending
  induction pending with
  | nil => intro f h; exact absurd h (by simp)
  | cons u us ih =>
    intro f h
    rw [List.foldl_cons]
    rcases List.mem_cons.mp h with rfl | hmem
    · refine syncMem_foldl_mono succ v.id us (syncStep succ f v) ?_
      simp [syncStep, hsucc, syncMem_syncAdd]
    · exact ih (syncStep succ f u) hmem

theorem countCreates_map (pending : List PromptVersion) (x : String) :
    countCreates (pending.map (fun v => RemoteCall.createVersion v.id)) x
      = pending.countP (fun v => v.id == x) := by
  induction pending with
  | nil => rfl
  | cons v vs ih =>
    have hbeq : (RemoteCall.createVersion v.id == RemoteCall.createVersion x)
        = (v.id == x) := by
      by_cases h : v.id = x <;> simp [h]
    rw [countCreates] at ih ⊢
    rw [List.map_cons, List.count_cons, List.countP_cons, ih, hbeq]

theorem countP_id_eq_one (versions : List PromptVersion) (x : String)
    (hnodup : (versions.map (fun v => v.id)).Nodup)
    (hmem : ∃ v ∈ versions, v.id = x) :
    versions.countP (fun v => v.id == x) = 1 := by
  obtain ⟨v, hv, hvx⟩ := hmem
  have h1 : versions.countP (fun v => v.id == x)
      = (versions.map (fun v => v.id)).count x := by
    rw [List.count_eq_countP, List.countP_map]
    rfl
  rw [h1]
  refine List.count_eq_one_of_mem hnodup ?_
  exact List.mem_map.mpr ⟨v, hv, hvx⟩

theorem countP_pending_eq_one (versions : List PromptVersion) (f0 : SyncField) (x : String)
    (hnodup : (versions.map (fun v => v.id)).Nodup)
    (hmem : ∃ v ∈ versions, v.id = x)
    (hun : syncMem f0 x = false) :
    (versions.filter (fun v => !(syncMem f0 v.id))).countP (fun v => v.id == x) = 1 := by
  obtain ⟨v, hv, hvx⟩ := hmem
  have hle : (versions.filter (fun v => !(syncMem f0 v.id))).countP (fun v => v.id == x)
      ≤ versions.countP (fun v => v.id == x) := by
    rw [List.countP_filter]
    refine List.countP_mono_left fun a _ h => ?_
    exact ((Bool.and_eq_true _ _).mp h).1
  have hmemp : v ∈ versions.filter (fun v => !(syncMem f0 v.id)) := by
    refine List.mem_filter.mpr ⟨hv, ?_⟩
    simp [hvx, hun]
  have hge : 0 < (versions.filter (fun v => !(syncMem f0 v.id))).countP
      (fun v => v.id == x) := by
    refine List.countP_pos_iff.mpr ⟨v, hmemp, ?_⟩
    simp [hvx]
  have := countP_id_eq_one versions x hnodup ⟨v, hv, hvx⟩
  omega

/-- C6 (amended). For a group that already has a remote correlation id, the
push pass is idempotent through `_syncedVersionIds`: a version unsynced at the
start of a pass whose remote create succeeds is created exactly once over the
pass and any repetition of it — its id enters the synced set during the first
pass and set members are skipped afterwards.  (Versions pushed by the
group-creation arm are not covered: the source never records them in
`_syncedVersionIds`; see the counterexample.) -/
theorem sync_push_idempotent_for_groups_with_remote_id
    (g : PromptGroup) (r x : String) (gsucc succ : String → Bool) (rid : String → String)
    (hsid : g.supabase_id = some r)
    (hnodup : (g.versions.map (fun v => v.id)).Nodup)
    (hmem : ∃ v ∈ g.versions, v.id = x)
    (hunsynced : syncMem g.syncedVersionIds x = false)
    (hsucc : succ x = true) :
    countCreates ((syncGroup gsucc succ rid g).2
        ++ (syncGroup gsucc succ rid (syncGroup gsucc succ rid g).1).2) x = 1
  ∧ syncMem (syncGroup gsucc succ rid g).1.syncedVersionIds x = true := by
  obtain ⟨v, hv, hvx⟩ := hmem
  have hun0 : syncMem (syncNorm g.syncedVersionIds) x = false := by
    rw [syncMem_syncNorm]; exact hunsynced
  have hg1 : syncGroup gsucc succ rid g
      = ({ g with syncedVersionIds :=
            (syncPassVersions succ g.versions (syncNorm g.syncedVersionIds)).1 },
         (syncPassVersions succ g.versions (syncNorm g.syncedVersionIds)).2) := by
    rw [syncGroup, hsid]
  have hc1 : countCreates (syncGroup gsucc succ rid g).2 x = 1 := by
    rw [hg1]
    simp only [syncPassVersions]
    rw [countCreates_map]
    exact countP_pending_eq_one g.versions (syncNorm g.syncedVersionIds) x hnodup
      ⟨v, hv, hvx⟩ hun0
  have hvpend : v ∈ g.versions.filter
      (fun u => !(syncMem (syncNorm g.syncedVersionIds) u.id)) := by
    refine List.mem_filter.mpr ⟨hv, ?_⟩
    simp [hvx, hun0]
  have hf1 : syncMem ((g.versions.filter
        (fun u => !(syncMem (syncNorm g.syncedVersionIds) u.id))).foldl (syncStep succ)
        (syncNorm g.syncedVersionIds)) x = true := by
    have := syncMem_foldl_of_mem succ v (by rw [hvx]; exact hsucc)
      (g.versions.filter (fun u => !(syncMem (syncNorm g.syncedVersionIds) u.id)))
      (syncNorm g.syncedVersionIds) hvpend
    rwa [hvx] at this
  have hmem1 : syncMem (syncGroup gsucc succ rid g).1.syncedVersionIds x = true := by
    rw [hg1]
    simpa only [syncPassVersions] using hf1
  refine ⟨?_, hmem1⟩
  have hsid1 : (syncGroup gsucc succ rid g).1.supabase_id = some r := by
    rw [hg1]; exact hsid
  have hg2 : (syncGroup gsucc succ rid (syncGroup gsucc succ rid g).1).2
      = (syncPassVersions succ (syncGroup gsucc succ rid g).1.versions
          (syncNorm (syncGroup gsucc succ rid g).1.syncedVersionIds)).2 := by
    conv_lhs => rw [syncGroup]
    rw [hsid1]
  have hvers1 : (syncGroup gsucc succ rid g).1.versions = g.versions := by
    rw [hg1]
  have hf1n : syncMem (syncNorm (syncGroup gsucc succ rid g).1.syncedVersionIds) x
      = true := by
    rw [syncMem_syncNorm]; exact hmem1
  have hc2 : countCreates (syncGroup gsucc succ rid (syncGroup gsucc succ rid g).1).2 x
      = 0 := by
    rw [hg2]
    simp only [syncPassVersions]
    rw [countCreates_map]
    rw [List.countP_eq_zero]
    intro u hu
    have hu' := List.mem_filter.mp hu
    intro hux
    have hux' : u.id = x := by simpa using hux
    rw [hux'] at hu'
    rw [hf1n] at hu'
    simpa using hu'.2
  rw [countCreates, List.count_append]
  rw [countCreates] at hc1 hc2
  omega

/-- Closed witness for `sync_push_idempotent_for_groups_with_remote_id` at a
two-version group with a remote id and one already-synced version. -/
theorem sync_push_idempotent_for_groups_with_remote_id_witness :
    countCreates ((syncGroup (fun _ => true) (fun _ => true) (fun s => s)
          (mkG "g" "" [mkV "a" 1 Status.current, mkV "b" 2 Status.draft] (some "r")
            (SyncField.set ["a"]))).2
        ++ (syncGroup (fun _ => true) (fun _ => true) (fun s => s)
            (syncGroup (fun _ => true) (fun _ => true) (fun s => s)
              (mkG "g" "" [mkV "a" 1 Status.current, mkV "b" 2 Status.draft] (some "r")
                (SyncField.set ["a"]))).1).2) "b" = 1
  ∧ syncMem (syncGroup (fun _ => true) (fun _ => true) (fun s => s)
        (mkG "g" "" [mkV "a" 1 Status.current, mkV "b" 2 Status.draft] (some "r")
          (SyncField.set ["a"]))).1.syncedVersionIds "b" = true :=
  sync_push_idempotent_for_groups_with_remote_id
    (mkG "g" "" [mkV "a" 1 Status.current, mkV "b" 2 Status.draft] (some "r")
      (SyncField.set ["a"]))
    "r" "b" (fun _ => true) (fun _ => true) (fun s => s)
    rfl (by decide) ⟨mkV "b" 2 Status.draft, by decide, rfl⟩ (by decide) rfl

/-- Counterexample to C6 as stated: for a group first created remotely by the
push pass (case 1 — no `supabase_id` yet), the versions pushed along with the
group creation are never recorded in `_syncedVersionIds`, so simulating
reconciliation twice issues two remote creates for the still-unsynced version
`"b"`, not one. -/
theorem sync_push_not_idempotent_after_group_creation_counterexample :
    countCreates
        ((syncToSupabase (fun _ => true) (fun _ => true) (fun s => s)
            [mkG "g" "" [mkV "a" 1 Status.current, mkV "b" 2 Status.draft] none
              SyncField.absent]).2
          ++ (syncToSupabase (fun _ => true) (fun _ => true) (fun s => s)
              (syncToSupabase (fun _ => true) (fun _ => true) (fun s => s)
                [mkG "g" "" [mkV "a" 1 Status.current, mkV "b" 2 Status.draft] none
                  SyncField.absent]).1).2) "b" = 2 := by
  decide

/-! ### Promotion on delete (C3) -/

theorem findFirstById_decomp (vid : String) :
    ∀ (vs : List PromptVersion) (v : PromptVersion), findFirstById vid vs = some v →
      ∃ vs1 vs2, vs = vs1 ++ v :: vs2 ∧ (∀ u ∈ vs1, u.id ≠ vid) ∧ v.id = vid
        ∧ removeFirstById vid vs = vs1 ++ vs2 := by
  intro vs
  induction vs with
  | nil => intro v h; exact absurd h (by simp [findFirstById])
  | cons u us ih =>
    intro v h
    by_cases hu : (u.id == vid) = true
    · have hv : u = v := by
        simpa [findFirstById, hu] using h
      subst hv
      exact ⟨[], us, by simp, by simp, by simpa using hu, by simp [removeFirstById, hu]⟩
    · have h' : findFirstById vid us = some v := by
        simpa [findFirstById, hu] using h
      obtain ⟨vs1, vs2, heq, hfst, hvid, hrem⟩ := ih v h'
      refine ⟨u :: vs1, vs2, by simp [heq], ?_, hvid, ?_⟩
      · intro w hw
        rcases List.mem_cons.mp hw with rfl | hw
        · simpa using hu
        · exact hfst w hw
      · simp [removeFirstById, hu, hrem]

theorem maxVersionNumber_le (vs : List PromptVersion) :
    ∀ u ∈ vs, u.version ≤ maxVersionNumber vs := by
  induction vs with
  | nil => intro u hu; exact absurd hu (by simp)
  | cons v vs ih =>
    intro u hu
    rcases List.mem_cons.mp hu with rfl | hu
    · exact Nat.le_max_left _ _
    · exact Nat.le_trans (ih u hu) (Nat.le_max_right _ _)

theorem maxVersionNumber_attained (vs : List PromptVersion) (h : vs ≠ []) :
    ∃ w ∈ vs, w.version = maxVersionNumber vs := by
  induction vs with
  | nil => exact absurd rfl h
  | cons v vs ih =>
    by_cases hvs : vs = []
    · subst hvs
      exact ⟨v, by simp, by simp [maxVersionNumber]⟩
    · obtain ⟨w, hw, hwv⟩ := ih hvs
      by_cases hle : maxVersionNumber vs ≤ v.version
      · refine ⟨v, by simp, ?_⟩
        show v.version = max v.version (maxVersionNumber vs)
        omega
      · refine ⟨w, by simp [hw], ?_⟩
        show w.version = max v.version (maxVersionNumber vs)
        omega

theorem setCurrentAtMax_decomp (m : Nat) :
    ∀ vs : List PromptVersion, (∃ w ∈ vs, w.version = m) →
      ∃ vs1 w vs2, vs = vs1 ++ w :: vs2 ∧ w.version = m ∧ (∀ u ∈ vs1, u.version ≠ m)
        ∧ setCurrentAtMax m vs = vs1 ++ ({ w with status := Status.current } :: vs2)
        ∧ vs.find? (fun u => u.version == m) = some w := by
  intro vs
  induction vs with
  | nil => rintro ⟨w, hw, -⟩; exact absurd hw (by simp)
  | cons v vs ih =>
    rintro ⟨w, hw, hwm⟩
    by_cases hv : (v.version == m) = true
    · refine ⟨[], v, vs, by simp, by simpa using hv, by simp, ?_, ?_⟩
      · simp [setCurrentAtMax, hv]
      · simp [List.find?_cons, hv]
    · have hw' : w ∈ vs := by
        rcases List.mem_cons.mp hw with rfl | h
        · exact absurd (by simp [hwm]) hv
        · exact h
      obtain ⟨vs1, w', vs2, heq, hwm', hfst, hset, hfind⟩ := ih ⟨w, hw', hwm⟩
      refine ⟨v :: vs1, w', vs2, by simp [heq], hwm', ?_, ?_, ?_⟩
      · intro u hu
        rcases List.mem_cons.mp hu with rfl | hu
        · simpa using hv
        · exact hfst u hu
      · simp [setCurrentAtMax, hv, hset]
      · simp [List.find?_cons, hv, hfind]

/-- C3. When `deleteVersion` removes a version from a group with more than one
version: if the removed version held `current`, afterwards a remaining version
carrying the highest remaining `versionNumber` holds `current` and the group's
`currentVersionId` points at it (and, when the remaining version numbers are
distinct, every version at that number is `current` — the source promotes the
first element of the stable descending sort); if the removed version held
`production`, `productionVersionId` is cleared and no remaining version's
status changes.  In particular, deleting v2(current, number 2) next to
v1(draft, number 1) leaves v1 `current` with `currentVersionId = v1.id`. -/
theorem deleteVersion_promotes_highest_remaining
    (g : PromptGroup) (vid : String) (now : Nat) (v : PromptVersion)
    (hfind : findFirstById vid g.versions = some v)
    (hlen : 1 < g.versions.length) :
    (v.status = Status.current →
       ∃ w ∈ (deleteVersionGroup vid now g).versions,
         w.version = maxVersionNumber (removeFirstById vid g.versions)
         ∧ w.status = Status.current
         ∧ (deleteVersionGroup vid now g).currentVersionId = w.id
         ∧ ∀ u ∈ removeFirstById vid g.versions, u.version ≤ w.version)
  ∧ (v.status = Status.current →
       ((removeFirstById vid g.versions).map (fun u => u.version)).Nodup →
       ∀ u ∈ (deleteVersionGroup vid now g).versions,
         u.version = maxVersionNumber (removeFirstById vid g.versions) →
         u.status = Status.current)
  ∧ (v.status = Status.production →
       (deleteVersionGroup vid now g).productionVersionId = none
       ∧ (deleteVersionGroup vid now g).versions = removeFirstById vid g.versions
       ∧ (deleteVersionGroup vid now g).currentVersionId = g.currentVersionId)
  ∧ (∀ t : Nat, getGroupById "gd"
        (deleteVersion "vd2" t
          [mkG "gd" "vd2" [mkV "vd1" 1 Status.draft, mkV "vd2" 2 Status.current] none
            SyncField.absent]).2
      = some { mkG "gd" "vd2" [mkV "vd1" 1 Status.draft, mkV "vd2" 2 Status.current] none
            SyncField.absent with
          versions := [{ mkV "vd1" 1 Status.draft with status := Status.current }],
          currentVersionId := "vd1",
          lastModified := t }) := by
  obtain ⟨vs1, vs2, heq, hfst, hvid, hrem⟩ := findFirstById_decomp vid g.versions v hfind
  have hremne : removeFirstById vid g.versions ≠ [] := by
    rw [hrem]
    intro hnil
    have h1 : vs1 = [] := by
      cases vs1 with
      | nil => rfl
      | cons a as => exact absurd hnil (by simp)
    have h2 : vs2 = [] := by
      cases vs2 with
      | nil => rfl
      | cons a as => simp [h1] at hnil
    rw [heq, h1, h2] at hlen
    simp at hlen
  refine ⟨?_, ?_, ?_, ?_⟩
  · intro hcur
    obtain ⟨ws1, w, ws2, hreq, hwm, hwfst, hset, hfindw⟩ :=
      setCurrentAtMax_decomp (maxVersionNumber (removeFirstById vid g.versions))
        (removeFirstById vid g.versions)
        (maxVersionNumber_attained _ hremne)
    have hunfold : deleteVersionGroup vid now g
        = { g with
            versions := setCurrentAtMax (maxVersionNumber (removeFirstById vid g.versions))
              (removeFirstById vid g.versions)
            currentVersionId := w.id
            productionVersionId := g.productionVersionId
            lastModified := now } := by
      simp [deleteVersionGroup, hfind, hcur, hfindw]
    refine ⟨{ w with status := Status.current }, ?_, by simpa using hwm, rfl, ?_, ?_⟩
    · rw [hunfold]
      simp [hset]
    · rw [hunfold]
    · intro u hu
      have := maxVersionNumber_le (removeFirstById vid g.versions) u hu
      simpa [hwm] using this
  · intro hcur hnd u hu hum
    obtain ⟨ws1, w, ws2, hreq, hwm, hwfst, hset, hfindw⟩ :=
      setCurrentAtMax_decomp (maxVersionNumber (removeFirstById vid g.versions))
        (removeFirstById vid g.versions)
        (maxVersionNumber_attained _ hremne)
    have hunfold : (deleteVersionGroup vid now g).versions
        = setCurrentAtMax (maxVersionNumber (removeFirstById vid g.versions))
            (removeFirstById vid g.versions) := by
      simp [deleteVersionGroup, hfind, hcur, hfindw]
    rw [hunfold, hset] at hu
    rcases List.mem_append.mp hu with hu1 | hu2
    · exact absurd hum (hwfst u hu1)
    · rcases List.mem_cons.mp hu2 with rfl | hu3
      · rfl
      · exfalso
        rw [hreq] at hnd
        have hnd2 : ((w :: ws2).map (fun u => u.version)).Nodup := by
          have h := hnd
          rw [List.map_append] at h
          exact h.of_append_right
        have hnd3 : (w.version :: ws2.map (fun u => u.version)).Nodup := by
          simpa using hnd2
        have hwnotin : w.version ∉ ws2.map (fun u => u.version) :=
          (List.nodup_cons.mp hnd3).1
        exact hwnotin (List.mem_map.mpr ⟨u, hu3, by rw [hum, hwm]⟩)
  · intro hprod
    refine ⟨?_, ?_, ?_⟩ <;>
      simp [deleteVersionGroup, hfind, hprod]
  · intro t
    rfl

/-- Closed witness for `deleteVersion_promotes_highest_remaining` instantiating
the current-deletion conjunct on the two-version fixture group. -/
theorem deleteVersion_promotes_highest_remaining_witness :
    ∃ w ∈ (deleteVersionGroup "vd2" 9
        (mkG "gd" "vd2" [mkV "vd1" 1 Status.draft, mkV "vd2" 2 Status.current] none
          SyncField.absent)).versions,
      w.version = maxVersionNumber (removeFirstById "vd2"
          (mkG "gd" "vd2" [mkV "vd1" 1 Status.draft, mkV "vd2" 2 Status.current] none
            SyncField.absent).versions)
      ∧ w.status = Status.current
      ∧ (deleteVersionGroup "vd2" 9
          (mkG "gd" "vd2" [mkV "vd1" 1 Status.draft, mkV "vd2" 2 Status.current] none
            SyncField.absent)).currentVersionId = w.id
      ∧ ∀ u ∈ removeFirstById "vd2"
          (mkG "gd" "vd2" [mkV "vd1" 1 Status.draft, mkV "vd2" 2 Status.current] none
            SyncField.absent).versions, u.version ≤ w.version :=
  (deleteVersion_promotes_highest_remaining
    (mkG "gd" "vd2" [mkV "vd1" 1 Status.draft, mkV "vd2" 2 Status.current] none
      SyncField.absent)
    "vd2" 9 (mkV "vd2" 2 Status.current) (by decide) (by decide)).1 rfl

/-! ### Monotonic version numbers (C4) -/

theorem natsFrom_snoc : ∀ (n s : Nat), natsFrom s (n + 1) = natsFrom s n ++ [s + n] := by
  intro n
  induction n with
  | zero => intro s; simp [natsFrom]
  | succ m ih =>
    intro s
    have heq : s + (m + 1) = (s + 1) + m := by omega
    calc natsFrom s (m + 2) = s :: natsFrom (s + 1) (m + 1) := rfl
      _ = s :: (natsFrom (s + 1) m ++ [(s + 1) + m]) := by rw [ih]
      _ = natsFrom s (m + 1) ++ [s + (m + 1)] := by
          simp [natsFrom, heq]

theorem natsFrom_foldr_max : ∀ (n s : Nat),
    (natsFrom s n).foldr max 0 = if n = 0 then 0 else s + n - 1 := by
  intro n
  induction n with
  | zero => intro s; rfl
  | succ m ih =>
    intro s
    have h0 : (natsFrom s (m + 1)).foldr max 0
        = max s ((natsFrom (s + 1) m).foldr max 0) := rfl
    rw [h0, ih (s + 1)]
    by_cases hm : m = 0 <;> simp [hm]

theorem demoteCurrent_version (v : PromptVersion) :
    (demoteCurrent v).version = v.version := by
  rw [demoteCurrent]
  split <;> rfl

theorem addVersionGroup_id (gid content : String) (opts : AddVersionOptions)
    (vid : String) (now : Nat) (g : PromptGroup) :
    (addVersionGroup gid content opts vid now g).2.id = g.id := by
  rw [addVersionGroup]
  split <;> rfl

theorem addVersionGroup_numbers (gid content : String) (opts : AddVersionOptions)
    (vid : String) (now : Nat) (g : PromptGroup) :
    (addVersionGroup gid content opts vid now g).2.versions.map (fun v => v.version)
      = g.versions.map (fun v => v.version) ++ [maxVersionNumber g.versions + 1] := by
  have hcomp : ((fun v => v.version) ∘ demoteCurrent) = (fun (v : PromptVersion) => v.version) := by
    funext v
    exact demoteCurrent_version v
  rw [addVersionGroup]
  split
  · simp only [List.map_append, List.map_map, List.map_cons, List.map_nil]
    rw [hcomp]
    rfl
  · simp only [List.map_append, List.map_cons, List.map_nil]
    rfl

theorem addVersion_found_step (gid content : String) (opts : AddVersionOptions)
    (vid : String) (now : Nat) :
    ∀ (gs : List PromptGroup) (g : PromptGroup), getGroupById gid gs = some g →
      getGroupById gid (addVersion gid content opts vid now gs).2
        = some (addVersionGroup gid content opts vid now g).2 := by
  intro gs
  induction gs with
  | nil => intro g h; exact absurd h (by simp [getGroupById])
  | cons a as ih =>
    intro g h
    by_cases ha : (a.id == gid) = true
    · have hag : a = g := by
        simpa [getGroupById, List.find?_cons, ha] using h
      subst hag
      have hid : ((addVersionGroup gid content opts vid now a).2.id == gid) = true := by
        rw [addVersionGroup_id]
        exact ha
      simp [addVersion, ha, getGroupById, List.find?_cons, hid]
    · have h' : getGroupById gid as = some g := by
        simpa [getGroupById, List.find?_cons, ha] using h
      have hrec := ih g h'
      simp only [addVersion, ha, Bool.false_eq_true, if_false]
      simpa [getGroupById, List.find?_cons, ha] using hrec

theorem addMany_numbers (gid : String) :
    ∀ (calls : List (String × AddVersionOptions × String × Nat))
      (gs : List PromptGroup) (g : PromptGroup) (k : Nat),
      getGroupById gid gs = some g →
      versionNumbers g = natsFrom 1 (k + 1) →
      ∃ g', getGroupById gid (addMany gid calls gs) = some g'
        ∧ versionNumbers g' = natsFrom 1 (k + calls.length + 1) := by
  intro calls
  induction calls with
  | nil =>
    intro gs g k hfind hnum
    exact ⟨g, hfind, by simpa using hnum⟩
  | cons c rest ih =>
    intro gs g k hfind hnum
    have hmax : maxVersionNumber g.versions = k + 1 := by
      have h0 : maxVersionNumber g.versions = (versionNumbers g).foldr max 0 := rfl
      rw [h0, hnum, natsFrom_foldr_max]
      simp
    have hstep := addVersion_found_step gid c.1 c.2.1 c.2.2.1 c.2.2.2 gs g hfind
    have hnum2 : versionNumbers (addVersionGroup gid c.1 c.2.1 c.2.2.1 c.2.2.2 g).2
        = natsFrom 1 (k + 1 + 1) := by
      have h1 : versionNumbers (addVersionGroup gid c.1 c.2.1 c.2.2.1 c.2.2.2 g).2
          = versionNumbers g ++ [maxVersionNumber g.versions + 1] :=
        addVersionGroup_numbers gid c.1 c.2.1 c.2.2.1 c.2.2.2 g
      rw [h1, hnum, hmax]
      have h2 : natsFrom 1 (k + 1 + 1) = natsFrom 1 (k + 1) ++ [1 + (k + 1)] :=
        natsFrom_snoc (k + 1) 1
      rw [h2]
      congr 2
      omega
    have hstep2 : addMany gid (c :: rest) gs
        = addMany gid rest (addVersion gid c.1 c.2.1 c.2.2.1 c.2.2.2 gs).2 := rfl
    obtain ⟨g', hg', hnum'⟩ :=
      ih (addVersion gid c.1 c.2.1 c.2.2.1 c.2.2.2 gs).2
        (addVersionGroup gid c.1 c.2.1 c.2.2.1 c.2.2.2 g).2 (k + 1) hstep hnum2
    refine ⟨g', by rw [hstep2]; exact hg', ?_⟩
    rw [hnum']
    congr 1
    simp only [List.length_cons]
    omega

/-- C4. `addVersion` assigns the new version the number
`max(existing versionNumbers) + 1`, and starting from a freshly created group
(whose sole version is numbered 1), N successive `addVersion` calls on that
group leave it with version numbers exactly `[1, 2, ..., N + 1]` — strictly
increasing with no gaps. -/
theorem addVersion_assigns_max_plus_one_and_numbers_gapless
    : (∀ (gid content : String) (opts : AddVersionOptions) (vid : String) (now : Nat)
        (g : PromptGroup), g.versions ≠ [] →
        (addVersionGroup gid content opts vid now g).1.version
          = maxVersionNumber g.versions + 1)
  ∧ (∀ (name content : String) (description : Option String) (gid vid0 : String)
      (now0 : Nat) (gs : List PromptGroup)
      (calls : List (String × AddVersionOptions × String × Nat)),
      (∀ g ∈ gs, g.id ≠ gid) →
      ∃ g', getGroupById gid
          (addMany gid calls (createPromptGroup name content description gid vid0 now0 gs).2)
          = some g'
        ∧ versionNumbers g' = natsFrom 1 (calls.length + 1)) := by
  constructor
  · intro gid content opts vid now g _
    rfl
  · intro name content description gid vid0 now0 gs calls hfresh
    have hfind : getGroupById gid (createPromptGroup name content description gid vid0 now0 gs).2
        = some (createPromptGroup name content description gid vid0 now0 gs).1 := by
      rw [createPromptGroup]
      simp only
      rw [getGroupById_append_fresh gid gs _ hfresh]
      simp [getGroupById]
    have hnum : versionNumbers (createPromptGroup name content description gid vid0 now0 gs).1
        = natsFrom 1 (0 + 1) := by
      simp [createPromptGroup, versionNumbers, mkFirstVersion, natsFrom]
    obtain ⟨g', hg', hnum'⟩ := addMany_numbers gid calls _ _ 0 hfind hnum
    exact ⟨g', hg', by simpa using hnum'⟩

/-- Closed witness for `addVersion_assigns_max_plus_one_and_numbers_gapless`:
two `addVersion` calls on a freshly created group yield numbers `[1, 2, 3]`,
and the single-step number on a concrete group is `max + 1 = 3`. -/
theorem addVersion_assigns_max_plus_one_and_numbers_gapless_witness
    : ((addVersionGroup "g" "c" optsNone "v9" 4
        (mkG "g" "" [mkV "a" 2 Status.current] none SyncField.absent)).1.version
        = maxVersionNumber
            (mkG "g" "" [mkV "a" 2 Status.current] none SyncField.absent).versions + 1)
  ∧ (∃ g', getGroupById "gf"
        (addMany "gf" [("c1", optsNone, "w1", 5), ("c2", optsNone, "w2", 6)]
          (createPromptGroup "G" "c0" none "gf" "w0" 4 []).2)
        = some g'
      ∧ versionNumbers g' = natsFrom 1 3) :=
  ⟨addVersion_assigns_max_plus_one_and_numbers_gapless.1 "g" "c" optsNone "v9" 4
      (mkG "g" "" [mkV "a" 2 Status.current] none SyncField.absent) (by decide),
   addVersion_assigns_max_plus_one_and_numbers_gapless.2 "G" "c0" none "gf" "w0" 4 []
      [("c1", optsNone, "w1", 5), ("c2", optsNone, "w2", 6)] (by simp)⟩

/-! ### Single-current / single-production invariant (C1) -/

theorem demoteOther_status_ne (s : Status) (hs : s = Status.current ∨ s = Status.production)
    (v : PromptVersion) : (demoteOther s v).status ≠ s := by
  rw [demoteOther]
  split
  · next h =>
    intro hc
    rcases hs with rfl | rfl <;> simp at hc
  · next h =>
    intro hc
    exact h ⟨hs, hc⟩

theorem countStatus_map_demoteOther (s : Status)
    (hs : s = Status.current ∨ s = Status.production) (vs : List PromptVersion) :
    countStatus s (vs.map (demoteOther s)) = 0 := by
  rw [countStatus, List.countP_eq_zero]
  intro u hu
  obtain ⟨w, hw, rfl⟩ := List.mem_map.mp hu
  simpa using demoteOther_status_ne s hs w

theorem countStatus_setStatusVersions_self (s : Status)
    (hs : s = Status.current ∨ s = Status.production) (vid : String) :
    ∀ vs : List PromptVersion, vs.any (fun v => v.id == vid) = true →
      countStatus s (setStatusVersions vid s vs) = 1 := by
  intro vs
  induction vs with
  | nil => intro h; simp at h
  | cons v vs ih =>
    intro h
    by_cases hv : (v.id == vid) = true
    · have h0 := countStatus_map_demoteOther s hs vs
      rw [countStatus] at h0
      simp only [setStatusVersions, hv, if_true, countStatus, List.countP_cons, h0]
      simp
    · have h' : vs.any (fun v => v.id == vid) = true := by
        simpa [hv] using h
      have hne := demoteOther_status_ne s hs v
      have hcnt := ih h'
      rw [countStatus] at hcnt
      simp only [setStatusVersions, hv, Bool.false_eq_true, if_false, countStatus,
        List.countP_cons, hcnt]
      simp [hne]

theorem setStatusVersions_status_id (s : Status)
    (hs : s = Status.current ∨ s = Status.production) (vid : String) :
    ∀ vs : List PromptVersion, ∀ u ∈ setStatusVersions vid s vs,
      u.status = s → u.id = vid := by
  intro vs
  induction vs with
  | nil => intro u hu; exact absurd hu (by simp [setStatusVersions])
  | cons v vs ih =>
    intro u hu hst
    by_cases hv : (v.id == vid) = true
    · rw [setStatusVersions, if_pos hv] at hu
      rcases List.mem_cons.mp hu with rfl | hu2
      · simpa using hv
      · obtain ⟨w, hw, rfl⟩ := List.mem_map.mp hu2
        exact absurd hst (demoteOther_status_ne s hs w)
    · rw [setStatusVersions, if_neg hv] at hu
      rcases List.mem_cons.mp hu with rfl | hu2
      · exact absurd hst (demoteOther_status_ne s hs v)
      · exact ih u hu2 hst

theorem demoteOther_count_le (t s : Status) (ht : t ≠ Status.draft) (v : PromptVersion) :
    (if (demoteOther s v).status = t then 1 else 0) ≤ (if v.status = t then 1 else 0) := by
  rw [demoteOther]
  split
  · simp [Ne.symm ht]
  · exact Nat.le_refl _

theorem countStatus_map_demoteOther_le (t s : Status) (ht : t ≠ Status.draft)
    (vs : List PromptVersion) :
    countStatus t (vs.map (demoteOther s)) ≤ countStatus t vs := by
  induction vs with
  | nil => exact Nat.le_refl _
  | cons v vs ih =>
    simp only [countStatus, List.map_cons, List.countP_cons] at ih ⊢
    have hv := demoteOther_count_le t s ht v
    have hcond : ∀ w : PromptVersion,
        (if (w.status == t) = true then 1 else 0) = (if w.status = t then 1 else 0) := by
      intro w
      by_cases h : w.status = t <;> simp [h]
    rw [hcond, hcond]
    omega

theorem countStatus_setStatusVersions_le (t s : Status) (ht : t ≠ Status.draft)
    (hts : t ≠ s) (vid : String) :
    ∀ vs : List PromptVersion,
      countStatus t (setStatusVersions vid s vs) ≤ countStatus t vs := by
  intro vs
  induction vs with
  | nil => exact Nat.le_refl _
  | cons v vs ih =>
    by_cases hv : (v.id == vid) = true
    · rw [setStatusVersions, if_pos hv]
      have h1 : countStatus t (vs.map (demoteOther s)) ≤ countStatus t vs :=
        countStatus_map_demoteOther_le t s ht vs
      simp only [countStatus, List.countP_cons] at h1 ⊢
      have h2 : (({ v with status := s } : PromptVersion).status == t) = false := by
        simp [Ne.symm hts]
      rw [h2]
      simp only [Bool.false_eq_true, if_false]
      omega
    · rw [setStatusVersions, if_neg hv]
      simp only [countStatus, List.countP_cons] at ih ⊢
      have hv2 := demoteOther_count_le t s ht v
      have hcond : ∀ w : PromptVersion,
          (if (w.status == t) = true then 1 else 0) = (if w.status = t then 1 else 0) := by
        intro w
        by_cases h : w.status = t <;> simp [h]
      rw [hcond, hcond]
      omega

theorem setStatusGroup_versions (vid : String) (s : Status) (now : Nat) (g : PromptGroup) :
    (setStatusGroup vid s now g).versions = setStatusVersions vid s g.versions := rfl

theorem setStatusGroup_keeps_counts (vid : String) (s : Status) (now : Nat)
    (g : PromptGroup)
    (hcur : countStatus Status.current g.versions ≤ 1)
    (hprod : countStatus Status.production g.versions ≤ 1)
    (hg : containsVersion vid g = true) :
    countStatus Status.current (setStatusGroup vid s now g).versions ≤ 1 ∧
    countStatus Status.production (setStatusGroup vid s now g).versions ≤ 1 := by
  rw [setStatusGroup_versions]
  cases s with
  | draft =>
    constructor
    · exact Nat.le_trans
        (countStatus_setStatusVersions_le Status.current Status.draft (by simp) (by simp)
          vid g.versions) hcur
    · exact Nat.le_trans
        (countStatus_setStatusVersions_le Status.production Status.draft (by simp) (by simp)
          vid g.versions) hprod
  | current =>
    constructor
    · rw [countStatus_setStatusVersions_self Status.current (Or.inl rfl) vid g.versions hg]
    · exact Nat.le_trans
        (countStatus_setStatusVersions_le Status.production Status.current (by simp)
          (by simp) vid g.versions) hprod
  | production =>
    constructor
    · exact Nat.le_trans
        (countStatus_setStatusVersions_le Status.current Status.production (by simp)
          (by simp) vid g.versions) hcur
    · rw [countStatus_setStatusVersions_self Status.production (Or.inr rfl) vid
        g.versions hg]

theorem setVersionStatus_keeps_statusInv (vid : String) (s : Status) (now : Nat) :
    ∀ gs : List PromptGroup, statusInv gs → statusInv (setVersionStatus vid s now gs).2 := by
  intro gs
  induction gs with
  | nil => intro h g hg; exact absurd hg (by simp [setVersionStatus])
  | cons a as ih =>
    intro h g hg
    by_cases ha : containsVersion vid a = true
    · rw [setVersionStatus, if_pos ha] at hg
      rcases List.mem_cons.mp hg with rfl | hmem
      · exact setStatusGroup_keeps_counts vid s now a (h a (by simp)).1 (h a (by simp)).2 ha
      · exact h g (by simp [hmem])
    · rw [setVersionStatus, if_neg ha] at hg
      rcases List.mem_cons.mp hg with rfl | hmem
      · exact h g (by simp)
      · exact ih (fun g' hg' => h g' (by simp [hg'])) g hmem

theorem countStatus_map_demoteCurrent_current (vs : List PromptVersion) :
    countStatus Status.current (vs.map demoteCurrent) = 0 := by
  rw [countStatus, List.countP_eq_zero]
  intro u hu
  obtain ⟨w, hw, rfl⟩ := List.mem_map.mp hu
  rw [demoteCurrent]
  split
  · simp
  · next h => simpa using h

theorem countStatus_map_demoteCurrent_production (vs : List PromptVersion) :
    countStatus Status.production (vs.map demoteCurrent) = countStatus Status.production vs := by
  induction vs with
  | nil => rfl
  | cons v vs ih =>
    simp only [countStatus, List.map_cons, List.countP_cons] at ih ⊢
    rw [ih]
    have h : ((demoteCurrent v).status == Status.production) = (v.status == Status.production) := by
      rw [demoteCurrent]
      split
      · next hc => simp [hc]
      · rfl
    rw [h]

theorem mkNewVersion_status_cases (gid content : String) (opts : AddVersionOptions)
    (vid : String) (now : Nat) (g : PromptGroup) :
    (mkNewVersion gid content opts vid now g).status = Status.draft
    ∨ (mkNewVersion gid content opts vid now g).status = Status.current := by
  rcases hopt : opts.status with _ | a
  · left
    simp [mkNewVersion, hopt, AddStatus.toStatus]
  · cases a with
    | draft => left; simp [mkNewVersion, hopt, AddStatus.toStatus]
    | current => right; simp [mkNewVersion, hopt, AddStatus.toStatus]

theorem addVersionGroup_keeps_counts (gid content : String) (opts : AddVersionOptions)
    (vid : String) (now : Nat) (g : PromptGroup)
    (hcur : countStatus Status.current g.versions ≤ 1)
    (hprod : countStatus Status.production g.versions ≤ 1) :
    countStatus Status.current (addVersionGroup gid content opts vid now g).2.versions ≤ 1 ∧
    countStatus Status.production (addVersionGroup gid content opts vid now g).2.versions ≤ 1 := by
  rw [addVersionGroup]
  split
  · next hst =>
    constructor
    · simp only [countStatus, List.countP_append]
      have h0 := countStatus_map_demoteCurrent_current g.versions
      rw [countStatus] at h0
      rw [h0]
      simp [List.countP_cons, hst]
    · simp only [countStatus, List.countP_append]
      have h0 := countStatus_map_demoteCurrent_production g.versions
      simp only [countStatus] at h0
      rw [h0]
      have h1 : ((mkNewVersion gid content opts vid now g).status == Status.production)
          = false := by
        rw [hst]
        simp
      simp only [List.countP_cons, List.countP_nil, h1]
      simpa using hprod
  · next hst =>
    have hdr : (mkNewVersion gid content opts vid now g).status = Status.draft := by
      rcases mkNewVersion_status_cases gid content opts vid now g with h | h
      · exact h
      · exact absurd h hst
    constructor
    · simp only [countStatus, List.countP_append, List.countP_cons, List.countP_nil, hdr]
      simp only [countStatus] at hcur
      simpa using hcur
    · simp only [countStatus, List.countP_append, List.countP_cons, List.countP_nil, hdr]
      simp only [countStatus] at hprod
      simpa using hprod

theorem addVersion_keeps_statusInv (gid content : String) (opts : AddVersionOptions)
    (vid : String) (now : Nat) :
    ∀ gs : List PromptGroup, statusInv gs →
      statusInv (addVersion gid content opts vid now gs).2 := by
  intro gs
  induction gs with
  | nil => intro h g hg; exact absurd hg (by simp [addVersion])
  | cons a as ih =>
    intro h g hg
    by_cases ha : (a.id == gid) = true
    · rw [addVersion, if_pos ha] at hg
      rcases List.mem_cons.mp hg with rfl | hmem
      · exact addVersionGroup_keeps_counts gid content opts vid now a
          (h a (by simp)).1 (h a (by simp)).2
      · exact h g (by simp [hmem])
    · rw [addVersion, if_neg ha] at hg
      rcases List.mem_cons.mp hg with rfl | hmem
      · exact h g (by simp)
      · exact ih (fun g' hg' => h g' (by simp [hg'])) g hmem

theorem addVersionGroup_current_exactly_one (gid content : String)
    (opts : AddVersionOptions) (vid : String) (now : Nat) (g : PromptGroup)
    (hopt : opts.status = some AddStatus.current) :
    countStatus Status.current (addVersionGroup gid content opts vid now g).2.versions = 1
    ∧ (addVersionGroup gid content opts vid now g).2.currentVersionId = vid := by
  have hst : (mkNewVersion gid content opts vid now g).status = Status.current := by
    simp [mkNewVersion, hopt, AddStatus.toStatus]
  rw [addVersionGroup]
  rw [if_pos hst]
  constructor
  · simp only [countStatus, List.countP_append]
    have h0 := countStatus_map_demoteCurrent_current g.versions
    rw [countStatus] at h0
    rw [h0]
    simp [hst]
  · rfl

theorem setVersionStatus_current_keeps_one (vid : String) (now : Nat) :
    ∀ gs : List PromptGroup,
      (∀ g ∈ gs, countStatus Status.current g.versions = 1) →
      ∀ g' ∈ (setVersionStatus vid Status.current now gs).2,
        countStatus Status.current g'.versions = 1 := by
  intro gs
  induction gs with
  | nil => intro _ g' hg'; exact absurd hg' (by simp [setVersionStatus])
  | cons a as ih =>
    intro h g' hg'
    by_cases ha : containsVersion vid a = true
    · rw [setVersionStatus, if_pos ha] at hg'
      rcases List.mem_cons.mp hg' with rfl | hmem
      · rw [setStatusGroup_versions]
        exact countStatus_setStatusVersions_self Status.current (Or.inl rfl) vid
          a.versions ha
      · exact h g' (by simp [hmem])
    · rw [setVersionStatus, if_neg ha] at hg'
      rcases List.mem_cons.mp hg' with rfl | hmem
      · exact h g' (by simp)
      · exact ih (fun g'' hg'' => h g'' (by simp [hg''])) g' hmem

theorem applyCurrentCalls_keeps_one :
    ∀ (calls : List (String × Nat)) (gs : List PromptGroup),
      (∀ g ∈ gs, countStatus Status.current g.versions = 1) →
      ∀ g' ∈ applyCurrentCalls calls gs, countStatus Status.current g'.versions = 1 := by
  intro calls
  induction calls with
  | nil =>
    intro gs h g' hg'
    exact h g' (by simpa [applyCurrentCalls] using hg')
  | cons c rest ih =>
    intro gs h
    have hstep := setVersionStatus_current_keeps_one c.1 c.2 gs h
    have heq : applyCurrentCalls (c :: rest) gs
        = applyCurrentCalls rest (setVersionStatus c.1 Status.current c.2 gs).2 := rfl
    rw [heq]
    exact ih _ hstep

/-- C1. Single-active-status invariant of the engine.  A `current` or
`production` transition leaves the found group with exactly one version of the
transitioned status (every other holder is demoted to `draft` — the unique
holder carries the transitioned id) and the matching group pointer updated;
every `setVersionStatus` call and every `addVersion` call preserves
at-most-one-`current` and at-most-one-`production` in every group; an
`addVersion` with `options.status = 'current'` likewise leaves exactly one
`current` pointing at the new version; and across any sequence of
`setVersionStatus(..., 'current')` calls, every group with exactly one
`current` version keeps exactly one. -/
theorem single_current_single_production
    : (∀ (vid : String) (now : Nat) (g : PromptGroup), containsVersion vid g = true →
        countStatus Status.current (setStatusGroup vid Status.current now g).versions = 1
      ∧ (setStatusGroup vid Status.current now g).currentVersionId = vid
      ∧ ∀ u ∈ (setStatusGroup vid Status.current now g).versions,
          u.status = Status.current → u.id = vid)
  ∧ (∀ (vid : String) (now : Nat) (g : PromptGroup), containsVersion vid g = true →
        countStatus Status.production (setStatusGroup vid Status.production now g).versions = 1
      ∧ (setStatusGroup vid Status.production now g).productionVersionId = some vid
      ∧ ∀ u ∈ (setStatusGroup vid Status.production now g).versions,
          u.status = Status.production → u.id = vid)
  ∧ (∀ (vid : String) (s : Status) (now : Nat) (gs : List PromptGroup),
        statusInv gs → statusInv (setVersionStatus vid s now gs).2)
  ∧ (∀ (gid content : String) (opts : AddVersionOptions) (vid : String) (now : Nat)
        (gs : List PromptGroup),
        statusInv gs → statusInv (addVersion gid content opts vid now gs).2)
  ∧ (∀ (gid content : String) (opts : AddVersionOptions) (vid : String) (now : Nat)
        (g : PromptGroup), opts.status = some AddStatus.current →
        countStatus Status.current (addVersionGroup gid content opts vid now g).2.versions = 1
      ∧ (addVersionGroup gid content opts vid now g).2.currentVersionId = vid)
  ∧ (∀ (calls : List (String × Nat)) (gs : List PromptGroup),
        (∀ g ∈ gs, countStatus Status.current g.versions = 1) →
        ∀ g' ∈ applyCurrentCalls calls gs,
          countStatus Status.current g'.versions = 1) := by
  refine ⟨?_, ?_, ?_, ?_, ?_, ?_⟩
  · intro vid now g hg
    refine ⟨?_, rfl, ?_⟩
    · rw [setStatusGroup_versions]
      exact countStatus_setStatusVersions_self Status.current (Or.inl rfl) vid g.versions hg
    · rw [setStatusGroup_versions]
      exact setStatusVersions_status_id Status.current (Or.inl rfl) vid g.versions
  · intro vid now g hg
    refine ⟨?_, rfl, ?_⟩
    · rw [setStatusGroup_versions]
      exact countStatus_setStatusVersions_self Status.production (Or.inr rfl) vid
        g.versions hg
    · rw [setStatusGroup_versions]
      exact setStatusVersions_status_id Status.production (Or.inr rfl) vid g.versions
  · intro vid s now gs h
    exact setVersionStatus_keeps_statusInv vid s now gs h
  · intro gid content opts vid now gs h
    exact addVersion_keeps_statusInv gid content opts vid now gs h
  · intro gid content opts vid now g hopt
    exact addVersionGroup_current_exactly_one gid content opts vid now g hopt
  · intro calls gs h
    exact applyCurrentCalls_keeps_one calls gs h

/-- Closed witness for `single_current_single_production` instantiating the
per-group transition facts and a two-call sequence on a concrete state. -/
theorem single_current_single_production_witness
    : (countStatus Status.current (setStatusGroup "u" Status.current 9
          (mkG "g1" "t" [mkV "u" 1 Status.draft, mkV "t" 2 Status.current] none
            SyncField.absent)).versions = 1
      ∧ (setStatusGroup "u" Status.current 9
          (mkG "g1" "t" [mkV "u" 1 Status.draft, mkV "t" 2 Status.current] none
            SyncField.absent)).currentVersionId = "u"
      ∧ ∀ u ∈ (setStatusGroup "u" Status.current 9
          (mkG "g1" "t" [mkV "u" 1 Status.draft, mkV "t" 2 Status.current] none
            SyncField.absent)).versions,
          u.status = Status.current → u.id = "u")
  ∧ (∀ g' ∈ applyCurrentCalls [("u", 5), ("t", 6)]
        [mkG "g1" "t" [mkV "u" 1 Status.draft, mkV "t" 2 Status.current] none
          SyncField.absent],
        countStatus Status.current g'.versions = 1) :=
  ⟨single_current_single_production.1 "u" 9
      (mkG "g1" "t" [mkV "u" 1 Status.draft, mkV "t" 2 Status.current] none
        SyncField.absent) (by decide),
   single_current_single_production.2.2.2.2.2 [("u", 5), ("t", 6)]
      [mkG "g1" "t" [mkV "u" 1 Status.draft, mkV "t" 2 Status.current] none
        SyncField.absent] (by decide)⟩

end PromptPilot
